import Mathlib

/-!
Verification of the Mystic Meadows farm-simulation core.

This file shallowly embeds the farming model of the repository:
tile flags and the soil grid (`src/game/soil.py`), crops (`Plant`),
the save snapshot assembled by `Farm.save_game` (`src/game/farm.py`),
the save-file loader (`src/game/systems/save.py`), the day transition
(`src/game/transition.py`), and the player input/action logic
(`src/game/entities/player.py`).  Pixel rendering, audio and sprite-group
visuals are out of scope; the embedded state is the tile-flag grid, the
crop list, and the numeric player/transition state the game logic reads.
-/

namespace Mystic

/-- Tile flags as stored in `SoilLayer.grid` cells: 'F' farmable, 'X' tilled,
'W' watered, 'P' planted. -/
inductive Flag
  | F | X | W | P
deriving DecidableEq

/-- A grid cell is a Python list of flag characters (`grid[y][x]`). -/
abbrev Cell := List Flag

/-- The soil grid, indexed `grid[y][x]` as in the source. -/
abbrev Grid := List (List Cell)

/-- Read `grid[ty][tx]`.  All source accesses are guarded so that the indices
are non-negative and in range; out-of-range reads yield the empty cell here. -/
def getCell (g : Grid) (tx ty : Int) : Cell :=
  (g.getD ty.toNat []).getD tx.toNat []

/-- Write `grid[ty][tx] = c` (no-op when out of range, matching the guarded
uses in the source). -/
def setCell (g : Grid) (tx ty : Int) (c : Cell) : Grid :=
  g.set ty.toNat ((g.getD ty.toNat []).set tx.toNat c)

theorem getCell_setCell_same (g : Grid) (tx ty : Int) (c : Cell)
    (hty : ty.toNat < g.length) (htx : tx.toNat < (g.getD ty.toNat []).length) :
    getCell (setCell g tx ty c) tx ty = c := by
  simp only [getCell, setCell, List.getD_eq_getElem?_getD, List.getElem?_set] at htx ⊢
  have htx' : tx.toNat < (g[ty.toNat]).length := by
    rwa [List.getElem?_eq_getElem hty, Option.getD_some] at htx
  simp [hty, htx']

theorem getCell_setCell_ne (g : Grid) (tx ty x y : Int) (c : Cell)
    (h : ¬(x.toNat = tx.toNat ∧ y.toNat = ty.toNat)) :
    getCell (setCell g tx ty c) x y = getCell g x y := by
  simp only [getCell, setCell, List.getD_eq_getElem?_getD, List.getElem?_set]
  by_cases hy : ty.toNat = y.toNat
  · have hx : ¬ tx.toNat = x.toNat := fun hx => h ⟨hx.symm, hy.symm⟩
    by_cases hl : ty.toNat < g.length
    · have hl' : y.toNat < g.length := hy ▸ hl
      simp [hy, hl', List.getElem?_set_ne hx]
    · have hl' : ¬ y.toNat < g.length := hy ▸ hl
      have hnone : g[y.toNat]? = none := by
        rw [List.getElem?_eq_none_iff]; omega
      simp [hy, hl', hnone]
  · simp [hy]

theorem setCell_length (g : Grid) (tx ty : Int) (c : Cell) :
    (setCell g tx ty c).length = g.length := by
  simp [setCell]

/-- Python `int()` applied to a rational: truncation toward zero. -/
def ratTrunc (q : ℚ) : Int := q.num.tdiv (q.den : Int)

/-- Python list indexing `l[i]`: negative indices count from the end, and an
index error yields `none` (the source catches it and keeps the old value). -/
def pyGet {α : Type} (l : List α) (i : Int) : Option α :=
  if 0 ≤ i then l[i.toNat]?
  else if (-i).toNat ≤ l.length then l[l.length - (-i).toNat]? else none

/-- `list.index`-style indexed map used to restate the `for y in range(...)`
loops of `water_all` and `remove_water`. -/
def mapIdxFrom {α : Type} (f : Nat → α → α) : Nat → List α → List α
  | _, [] => []
  | i, a :: as => f i a :: mapIdxFrom f (i + 1) as

/-- A crop sprite (`Plant` in `soil.py`).  Only the simulation-relevant data is
kept: the stored tile coords, the frame sizes (widths and heights of the
growth-stage images, which determine the sprite rect), the current image size,
the per-type vertical offset, and the growth state. -/
structure Plant where
  plant_type : String
  tile_size : Nat
  tx : Int
  ty : Int
  frames : List (Nat × Nat)
  image_w : Nat
  image_h : Nat
  y_offset : Int
  max_stage : Nat
  growth_stage : ℚ
  harvestable : Bool
deriving DecidableEq, Inhabited

/-- `Plant.__init__`: frames are imported from `assets/sprites/fruit/<type>`
(modelled by the `assets` map, giving each frame's width and height); when no
frames are found the fallback is a single `tile_size`-square placeholder with
`max_stage = 3`.  `y_offset` is -16 for corn and -8 otherwise. -/
def mkPlant (assets : String → List (Nat × Nat)) (tile_size : Nat) (x y : Int)
    (plant_type : String) : Plant :=
  match assets plant_type with
  | [] =>
    { plant_type := plant_type, tile_size := tile_size, tx := x, ty := y
      frames := [(tile_size, tile_size)]
      image_w := tile_size, image_h := tile_size
      y_offset := if plant_type = "corn" then -16 else -8
      max_stage := 3, growth_stage := 0, harvestable := false }
  | f :: fs =>
    { plant_type := plant_type, tile_size := tile_size, tx := x, ty := y
      frames := f :: fs
      image_w := f.1, image_h := f.2
      y_offset := if plant_type = "corn" then -16 else -8
      max_stage := (f :: fs).length - 1, growth_stage := 0, harvestable := false }

/-- An integer pygame rect (x, y, width, height). -/
structure RectI where
  x : Int
  y : Int
  w : Int
  h : Int
deriving DecidableEq

/-- `Plant.reposition`: the rect of the current image placed with midbottom at
`(tx*ts + ts//2, ty*ts + ts + y_offset)`. -/
def Plant.rect (p : Plant) : RectI :=
  let mx : Int := p.tx * (p.tile_size : Int) + ((p.tile_size / 2 : Nat) : Int)
  let mby : Int := p.ty * (p.tile_size : Int) + (p.tile_size : Int) + p.y_offset
  ⟨mx - ((p.image_w / 2 : Nat) : Int), mby - (p.image_h : Int),
    (p.image_w : Int), (p.image_h : Int)⟩

/-- `rect.centerx` in pygame: `x + w // 2`. -/
def Plant.centerx (p : Plant) : Int := p.rect.x + ((p.image_w / 2 : Nat) : Int)

/-- `rect.centery` in pygame: `y + h // 2`. -/
def Plant.centery (p : Plant) : Int := p.rect.y + ((p.image_h / 2 : Nat) : Int)

/-- `Plant.advance`: grow one stage if below `max_stage`, update the image to
the frame at `int(growth_stage)` (an index error keeps the old image), and set
`harvestable` once `growth_stage >= max_stage`. -/
def Plant.advance (p : Plant) : Plant :=
  if p.growth_stage < (p.max_stage : ℚ) then
    let p1 := { p with growth_stage := p.growth_stage + 1 }
    let p2 := match pyGet p1.frames (ratTrunc p1.growth_stage) with
      | some fr => { p1 with image_w := fr.1, image_h := fr.2 }
      | none => p1
    if (p2.max_stage : ℚ) ≤ p2.growth_stage then { p2 with harvestable := true }
    else p2
  else p

/-- The soil grid (`SoilLayer`).  `assets` records, per crop type, the frame
sizes that `import_folder` would load for it (the same map is used by `plant`
and `restore_state`, which both construct `Plant` from the same assets dir). -/
structure SoilLayer where
  tile_size : Nat
  grid_w : Nat
  grid_h : Nat
  grid : Grid
  plants : List Plant
  raining : Bool
  assets : String → List (Nat × Nat)

/-- `SoilLayer.in_bounds`. -/
def SoilLayer.in_bounds (s : SoilLayer) (tx ty : Int) : Bool :=
  0 ≤ tx && tx < (s.grid_w : Int) && 0 ≤ ty && ty < (s.grid_h : Int)

/-- `SoilLayer.water_all`: water every tilled, not-yet-watered tile. -/
def SoilLayer.water_all (s : SoilLayer) : SoilLayer :=
  { s with grid := mapIdxFrom (fun y row =>
      if y < s.grid_h then
        mapIdxFrom (fun x c =>
          if x < s.grid_w ∧ Flag.X ∈ c ∧ Flag.W ∉ c then c ++ [Flag.W] else c) 0 row
      else row) 0 s.grid }

/-- `SoilLayer.remove_water`: clear the watered flag everywhere. -/
def SoilLayer.remove_water (s : SoilLayer) : SoilLayer :=
  { s with grid := mapIdxFrom (fun y row =>
      if y < s.grid_h then
        mapIdxFrom (fun x c =>
          if x < s.grid_w ∧ Flag.W ∈ c then c.erase Flag.W else c) 0 row
      else row) 0 s.grid }

/-- `SoilLayer.till`: till a farmable, untilled in-bounds tile; when raining,
a successful till waters the whole grid. -/
def SoilLayer.till (s : SoilLayer) (tx ty : Int) : Bool × SoilLayer :=
  if ¬ s.in_bounds tx ty then (false, s)
  else
    let cell := getCell s.grid tx ty
    if Flag.F ∉ cell ∨ Flag.X ∈ cell then (false, s)
    else
      let s1 := { s with grid := setCell s.grid tx ty (cell ++ [Flag.X]) }
      (true, if s1.raining then s1.water_all else s1)

/-- `SoilLayer.water`: water a tilled in-bounds tile (no-op success when
already watered). -/
def SoilLayer.water (s : SoilLayer) (tx ty : Int) : Bool × SoilLayer :=
  if ¬ s.in_bounds tx ty then (false, s)
  else
    let cell := getCell s.grid tx ty
    if Flag.X ∉ cell then (false, s)
    else if Flag.W ∈ cell then (true, s)
    else (true, { s with grid := setCell s.grid tx ty (cell ++ [Flag.W]) })

/-- `SoilLayer.check_watered`: convert a world point to tile coords by floor
division and test the watered flag (false when out of bounds). -/
def SoilLayer.check_watered (s : SoilLayer) (pos : Int × Int) : Bool :=
  let x := pos.1.fdiv (s.tile_size : Int)
  let y := pos.2.fdiv (s.tile_size : Int)
  if 0 ≤ x ∧ x < (s.grid_w : Int) ∧ 0 ≤ y ∧ y < (s.grid_h : Int) then
    decide (Flag.W ∈ getCell s.grid x y)
  else false

/-- `SoilLayer.plant`: plant a seed on a tilled, unplanted in-bounds tile,
appending a fresh crop to the sprite list. -/
def SoilLayer.plant (s : SoilLayer) (tx ty : Int) (seed_id : String) :
    Bool × SoilLayer :=
  if ¬ s.in_bounds tx ty then (false, s)
  else
    let cell := getCell s.grid tx ty
    if Flag.X ∉ cell ∨ Flag.P ∈ cell then (false, s)
    else
      (true, { s with
                grid := setCell s.grid tx ty (cell ++ [Flag.P]),
                plants := s.plants ++ [mkPlant s.assets s.tile_size tx ty seed_id] })

/-- `SoilLayer.update_plants`: advance every crop whose sprite rect center is
on a watered tile, or every crop when raining. -/
def SoilLayer.update_plants (s : SoilLayer) : SoilLayer :=
  { s with plants := s.plants.map fun p =>
      if s.check_watered (p.centerx, p.centery) || s.raining then p.advance else p }

/-- pygame `Rect.colliderect`. -/
def colliderect (a b : RectI) : Bool :=
  a.x < b.x + b.w && a.y < b.y + b.h && a.x + a.w > b.x && a.y + a.h > b.y

/-- The iteration of `harvest_at_rect` over the plant list: the first
harvestable plant colliding with the query rect, with the remaining list. -/
def pickHarvest (r : RectI) : List Plant → Option (Plant × List Plant)
  | [] => none
  | p :: ps =>
    if p.harvestable && colliderect p.rect r then some (p, ps)
    else match pickHarvest r ps with
      | some (q, rest) => some (q, p :: rest)
      | none => none

/-- `SoilLayer.harvest_at_rect`: harvest the first harvestable colliding crop,
clearing the planted and watered flags from its (clamped) tile. -/
def SoilLayer.harvest_at_rect (s : SoilLayer) (r : RectI) :
    Option String × SoilLayer :=
  match pickHarvest r s.plants with
  | none => (none, s)
  | some (p, rest) =>
    let tx : Int := max 0 (min p.tx ((s.grid_w : Int) - 1))
    let ty : Int := max 0 (min p.ty ((s.grid_h : Int) - 1))
    let cell0 := getCell s.grid tx ty
    let cell1 := if Flag.P ∈ cell0 then cell0.erase Flag.P else cell0
    let cell2 := if Flag.W ∈ cell1 then cell1.erase Flag.W else cell1
    (some p.plant_type, { s with grid := setCell s.grid tx ty cell2, plants := rest })

/-- One saved plant descriptor (`x`, `y`, `type`, `growth_stage`). -/
structure PlantDesc where
  x : Int
  y : Int
  type : String
  growth_stage : ℚ
deriving DecidableEq, Inhabited

/-- The plant reconstructed by `restore_state` for one descriptor: a fresh
`Plant` at the clamped coords whose saved stage is written back, whose image
is the frame at `min(int(stage), len(frames)-1)` (an index error skips the
image update and the harvestable recomputation, which the source catches),
and whose harvestable flag is recomputed from the stage. -/
def restoredPlant (assets : String → List (Nat × Nat)) (tile_size : Nat)
    (x y : Int) (d : PlantDesc) : Plant :=
  let p0 := mkPlant assets tile_size x y d.type
  let p1 := { p0 with growth_stage := d.growth_stage }
  let p2 :=
    if p1.frames.isEmpty then
      some p1
    else
      let idx : Int := min (ratTrunc p1.growth_stage) ((p1.frames.length : Int) - 1)
      (pyGet p1.frames idx).map fun fr => { p1 with image_w := fr.1, image_h := fr.2 }
  match p2 with
  | some q => { q with harvestable := (q.max_stage : ℚ) ≤ q.growth_stage }
  | none => p1

/-- One step of the plant-restoring loop of `SoilLayer.restore_state`:
clamp the descriptor coords into bounds, mark the cell planted (skipped on an
index error, which the source catches), and append the reconstructed plant. -/
def restorePlantStep (s : SoilLayer) (d : PlantDesc) : SoilLayer :=
  let tx : Int := if 0 < s.grid_w then max 0 (min d.x ((s.grid_w : Int) - 1)) else 0
  let ty : Int := if 0 < s.grid_h then max 0 (min d.y ((s.grid_h : Int) - 1)) else 0
  let s1 :=
    if ty.toNat < s.grid.length ∧ tx.toNat < (s.grid.getD ty.toNat []).length then
      let cell := getCell s.grid tx ty
      if Flag.P ∈ cell then s
      else { s with grid := setCell s.grid tx ty (cell ++ [Flag.P]) }
    else s
  { s1 with plants := s1.plants ++ [restoredPlant s1.assets s1.tile_size tx ty d] }

/-- `SoilLayer.restore_state`: replace the grid (and its dimensions) from the
payload when a grid is present, drop all live plants, and recreate plants from
the descriptors. -/
def SoilLayer.restore_state (s : SoilLayer) (gridPayload : Option Grid)
    (plantsPayload : List PlantDesc) : SoilLayer :=
  let s1 := match gridPayload with
    | some g => { s with grid := g, grid_h := g.length, grid_w := (g.headD []).length }
    | none => s
  let s2 := { s1 with plants := [] }
  plantsPayload.foldl restorePlantStep s2

/-- The soil part of the snapshot `Farm.save_game` assembles. -/
structure SoilSnapshot where
  grid : Grid
  tile_size : Nat
  width : Nat
  height : Nat

/-- `Farm.save_game`, soil part: the live grid plus tile size and dimensions. -/
def saveSoil (s : SoilLayer) : SoilSnapshot :=
  ⟨s.grid, s.tile_size, s.grid_w, s.grid_h⟩

/-- `Farm.save_game`, plants part: one descriptor per live plant, in sprite
order, recording the stored tile coords, type and growth stage. -/
def savePlants (s : SoilLayer) : List PlantDesc :=
  s.plants.map fun p => ⟨p.tx, p.ty, p.plant_type, p.growth_stage⟩

/-! ### Save-file loading (`src/game/systems/save.py`) -/

/-- A JSON value, with only the structure the loader's validation inspects:
either an object with named fields or some non-object value. -/
inductive JValue
  | obj (fields : List (String × JValue))
  | nonObj

/-- The on-disk state of one save file. -/
inductive FileState
  | absent
  | unparseable
  | parsed (v : JValue)

/-- `Path.exists()`. -/
def FileState.exists? : FileState → Bool
  | .absent => false
  | _ => true

/-- The `LoadError` outcomes `load_game` can raise. -/
inductive LoadErr
  | notFound
  | readFailed
  | bothInvalid
deriving DecidableEq

/-- The loader's validation: the parsed value must be a dict containing a
"payload" key. -/
def isEnvelope : JValue → Bool
  | .obj fields => fields.any fun kv => kv.1 == "payload"
  | .nonObj => false

/-- `_read` inside `load_game`: open and JSON-parse the file, validate the
envelope; every failure (including an unreadable file) becomes a LoadError. -/
def readSave : FileState → Except LoadErr JValue
  | .absent => .error .readFailed
  | .unparseable => .error .readFailed
  | .parsed v => if isEnvelope v then .ok v else .error .readFailed

/-- `load_game`: if the primary file exists, read it, falling back to the
backup (when present) on a read error; a missing primary raises immediately. -/
def load_game (primary bak : FileState) : Except LoadErr JValue :=
  if primary.exists? then
    match readSave primary with
    | .ok v => .ok v
    | .error e =>
      if bak.exists? then
        match readSave bak with
        | .ok v => .ok v
        | .error _ => .error .bothInvalid
      else .error e
  else .error .notFound

/-! ### Day transition (`src/game/transition.py`) -/

/-- The day-transition controller state. -/
structure Transition where
  progress : ℚ
  duration : ℚ
  running : Bool
deriving DecidableEq

/-- `Transition.start`: unconditionally sets `running = True` and
`progress = 0.0`. -/
def Transition.start (t : Transition) : Transition :=
  { t with running := true, progress := 0 }

/-- `Transition.update`: accumulate `dt` while running; at `duration` stop and
fire the day-advance callback (the returned Bool). -/
def Transition.update (t : Transition) (dt : ℚ) : Transition × Bool :=
  if t.running = false then (t, false)
  else
    let p := t.progress + dt
    if t.duration ≤ p then ({ t with progress := p, running := false }, true)
    else ({ t with progress := p }, false)

/-! ### Player movement input (`src/game/entities/player.py`) -/

/-- Pressed movement keys (W/UP, S/DOWN, A/LEFT, D/RIGHT groups). -/
structure Keys where
  up : Bool
  down : Bool
  left : Bool
  right : Bool
deriving DecidableEq

/-- The movement-relevant player state: the gate flags `Player.input` reads
(tool-use timer, seed-use timer, sleep, farm transition), the direction
vector, the animation status, and the logical position. -/
structure PlayerMove where
  toolUseRunning : Bool
  seedUseRunning : Bool
  sleep : Bool
  transitionRunning : Bool
  dirX : Int
  dirY : Int
  status : String
  posX : ℚ
  posY : ℚ
  speed : ℚ
deriving DecidableEq

/-- The movement-key section of `Player.input`: direction and status are
updated from the keys only when the tool-use timer is not running, the player
is not sleeping, and the day transition is not running (the seed-use timer is
not consulted). -/
def PlayerMove.inputMove (p : PlayerMove) (k : Keys) : PlayerMove :=
  if p.toolUseRunning = false ∧ p.sleep = false ∧ p.transitionRunning = false then
    let p1 :=
      if k.up then { p with dirY := -1, status := "up" }
      else if k.down then { p with dirY := 1, status := "down" }
      else { p with dirY := 0 }
    if k.right then { p1 with dirX := 1, status := "right" }
    else if k.left then { p1 with dirX := -1, status := "left" }
    else { p1 with dirX := 0 }
  else p

/-- `Player.move`: no movement while sleeping or during the day transition;
otherwise the position advances by `direction * speed * dt`.  The source first
rescales a diagonal direction to unit length (a floating-point normalize);
that rescaling is the identity for the axis-aligned and zero directions used
below and never changes whether the position moves, so it is omitted, as is
collision resolution (a no-op against an empty collision group). -/
def PlayerMove.move (p : PlayerMove) (dt : ℚ) : PlayerMove :=
  if p.sleep then p
  else if p.transitionRunning then p
  else { p with
          posX := p.posX + p.dirX * p.speed * dt,
          posY := p.posY + p.dirY * p.speed * dt }

/-- The `tool == 'water'` branch of `Player._on_tool_use_done`: convert the
captured target position to tile coords by floor division and water that
single tile. -/
def onToolUseDoneWater (soil : SoilLayer) (target_pos : Int × Int) : SoilLayer :=
  let tx := target_pos.1.fdiv (soil.tile_size : Int)
  let ty := target_pos.2.fdiv (soil.tile_size : Int)
  (soil.water tx ty).2

/-- The body of `use_tool_water`'s double loop: water one neighbor offset and
accumulate whether anything was watered. -/
def waterStep (tx ty : Int) (acc : Bool × SoilLayer) (d : Int × Int) :
    Bool × SoilLayer :=
  let r := acc.2.water (tx + d.1) (ty + d.2)
  (acc.1 || r.1, r.2)

/-- The offsets visited by `use_tool_water` (dx outer loop, dy inner). -/
def waterOffsets : List (Int × Int) :=
  [(-1, -1), (-1, 0), (-1, 1), (0, -1), (0, 0), (0, 1), (1, -1), (1, 0), (1, 1)]

/-- `Player.use_tool_water`: attempt to water the 3x3 neighborhood of
`(tx,ty)`, reporting whether any tile was watered. -/
def useToolWater (soil : SoilLayer) (tx ty : Int) : Bool × SoilLayer :=
  waterOffsets.foldl (waterStep tx ty) (false, soil)

/-- `Player.__init__`: the hotbar slots. -/
def hotbar : List String := ["hoe", "axe", "water", "corn", "tomato"]

/-- The `selected_slot` setter: coerce the assigned value with `int()` (0 when
the conversion fails, modelled by `none`), then reduce modulo the hotbar
length (or 1 when the hotbar is empty). -/
def setSelectedSlot (v : Option Int) : Nat :=
  let val : Int := v.getD 0
  let len : Nat := if hotbar.length = 0 then 1 else hotbar.length
  (val % (len : Int)).toNat

/-! ### Claim C2: till precondition -/

/-- A 2x2 sample layer: all tiles farmable, tile (1,1) already tilled. -/
def soil2 : SoilLayer :=
  { tile_size := 48, grid_w := 2, grid_h := 2,
    grid := [[[Flag.F], [Flag.F]], [[Flag.F], [Flag.F, Flag.X]]],
    plants := [], raining := false, assets := fun _ => [] }

/-- C2: `till(tx,ty)` returns true iff the tile is in bounds, farmable and not
already tilled; on failure it returns false and leaves every cell of the grid
unchanged. -/
theorem till_success_iff (s : SoilLayer) (tx ty : Int) :
    ((s.till tx ty).1 = true ↔
      (s.in_bounds tx ty = true ∧ Flag.F ∈ getCell s.grid tx ty ∧
        Flag.X ∉ getCell s.grid tx ty))
    ∧ ((s.till tx ty).1 = false → (s.till tx ty).2.grid = s.grid) := by
  simp only [SoilLayer.till]
  split
  next hb =>
    simp only [Bool.not_eq_true] at hb
    refine ⟨⟨(fun h => nomatch h), ?_⟩, fun _ => rfl⟩
    rintro ⟨h1, -, -⟩
    rw [hb] at h1
    exact nomatch h1
  next hb =>
    rw [Bool.not_eq_true, Bool.not_eq_false] at hb
    split
    next hf =>
      refine ⟨⟨(fun h => nomatch h), ?_⟩, fun _ => rfl⟩
      rintro ⟨-, h2, h3⟩
      rcases hf with hf | hf
      · exact absurd h2 hf
      · exact absurd hf h3
    next hf =>
      push_neg at hf
      exact ⟨⟨fun _ => ⟨hb, hf.1, hf.2⟩, fun _ => rfl⟩, fun h => nomatch h⟩

/-- Witness for C2 at a concrete out-of-bounds input. -/
theorem till_success_iff_witness :
    (soil2.till 5 0).1 = false ∧ (soil2.till 5 0).2.grid = soil2.grid :=
  ⟨by decide, (till_success_iff soil2 5 0).2 (by decide)⟩

/-! ### Claim C3: load fallback -/

/-- A structurally valid save envelope (an object with a "payload" key). -/
def validEnvelope : JValue := .obj [("payload", .nonObj)]

/-- C3 counterexample: with the primary file missing and a valid backup
present, `load_game` raises `notFound` instead of falling back to the backup
(which `_read` would accept). -/
theorem load_missing_primary_no_fallback :
    readSave (.parsed validEnvelope) = .ok validEnvelope ∧
    load_game .absent (.parsed validEnvelope) = .error .notFound :=
  ⟨rfl, rfl⟩

/-- C3 amended: the backup fallback fires only when the primary file exists
but fails to read/parse/validate; a missing primary raises immediately, a
readable primary is returned, a failed primary with a present backup returns
the backup's result (wrapping a backup failure as `bothInvalid`), and a failed
primary with no backup re-raises the primary's error. -/
theorem load_game_fallback_spec (p b : FileState) :
    (p.exists? = false → load_game p b = .error .notFound)
    ∧ (∀ v, readSave p = .ok v → load_game p b = .ok v)
    ∧ (∀ e, p.exists? = true → readSave p = .error e → b.exists? = false →
        load_game p b = .error e)
    ∧ (∀ e v, p.exists? = true → readSave p = .error e → b.exists? = true →
        readSave b = .ok v → load_game p b = .ok v)
    ∧ (∀ e e', p.exists? = true → readSave p = .error e → b.exists? = true →
        readSave b = .error e' → load_game p b = .error .bothInvalid) := by
  refine ⟨fun h => by simp [load_game, h], fun v hv => ?_, fun e hp he hb => ?_,
    fun e v hp he hb hbv => ?_, fun e e' hp he hb hbe => ?_⟩
  · have hex : p.exists? = true := by
      cases p <;> simp_all [readSave, FileState.exists?]
    simp [load_game, hex, hv]
  · simp [load_game, hp, he, hb]
  · simp [load_game, hp, he, hb, hbv]
  · simp [load_game, hp, he, hb, hbe]

/-- Witness for C3's amended theorem: a corrupt primary with a valid backup
falls back to the backup. -/
theorem load_game_fallback_spec_witness :
    load_game .unparseable (.parsed validEnvelope) = .ok validEnvelope :=
  (load_game_fallback_spec .unparseable (.parsed validEnvelope)).2.2.2.1
    .readFailed validEnvelope rfl rfl rfl rfl

/-! ### Claim C8: transition start -/

/-- C8 counterexample: `start()` during a running transition is not a no-op —
it resets the accumulated progress to 0. -/
theorem transition_start_not_noop :
    (Transition.start { progress := 1/2, duration := 1, running := true }
      ≠ { progress := 1/2, duration := 1, running := true }) ∧
    ({ progress := 1/2, duration := 1, running := true : Transition }).running
      = true := by
  constructor
  · intro h
    have := congrArg Transition.progress h
    norm_num [Transition.start] at this
  · rfl

/-- C8 amended: `start()` unconditionally sets `running = true` and
`progress = 0`; called while a transition is already running it restarts the
transition (resetting progress) rather than leaving the state unchanged. -/
theorem transition_start_spec (t : Transition) :
    (t.start).running = true ∧ (t.start).progress = 0 ∧
    (t.start).duration = t.duration :=
  ⟨rfl, rfl, rfl⟩

/-! ### Claim C9: movement lock during action timers -/

/-- Only the D/RIGHT key pressed. -/
def keysRight : Keys := { up := false, down := false, left := false, right := true }

/-- A player with only the seed-use timer running, standing still. -/
def p9 : PlayerMove :=
  { toolUseRunning := false, seedUseRunning := true, sleep := false,
    transitionRunning := false, dirX := 0, dirY := 0, status := "down",
    posX := 0, posY := 0, speed := 160 }

/-- C9 counterexample: with the seed-use action timer running (and the
tool-use timer idle), movement input is processed — the direction is updated
from the key state and the subsequent move step changes the position. -/
theorem seed_timer_does_not_block_movement :
    p9.seedUseRunning = true ∧
    (p9.inputMove keysRight).dirX = 1 ∧
    ((p9.inputMove keysRight).move 1).posX ≠ p9.posX := by
  refine ⟨rfl, rfl, ?_⟩
  have h : ((p9.inputMove keysRight).move 1).posX = 160 := by
    norm_num [PlayerMove.move, PlayerMove.inputMove, p9, keysRight]
  rw [h]
  norm_num [p9]

/-- C9 amended: only the tool-use timer (together with sleep and the day
transition) gates movement input: while it runs, the input step leaves the
player state unchanged, and a player whose direction was zeroed at action
start does not move. -/
theorem tool_timer_blocks_movement (p : PlayerMove) (k : Keys) (dt : ℚ)
    (h : p.toolUseRunning = true) :
    p.inputMove k = p ∧
    (p.dirX = 0 → p.dirY = 0 → ((p.inputMove k).move dt).posX = p.posX ∧
      ((p.inputMove k).move dt).posY = p.posY) := by
  have h1 : p.inputMove k = p := by
    simp [PlayerMove.inputMove, h]
  refine ⟨h1, fun hx hy => ?_⟩
  rw [h1]
  unfold PlayerMove.move
  by_cases hs : p.sleep
  · simp [hs]
  · by_cases ht : p.transitionRunning
    · simp [hs, ht]
    · simp [hs, ht, hx, hy]

/-- A player rooted by the tool-use timer. -/
def p9T : PlayerMove := { p9 with toolUseRunning := true }

/-- Witness for C9's amended theorem: a rooted player ignores a movement key
and stays in place. -/
theorem tool_timer_blocks_movement_witness :
    p9T.inputMove keysRight = p9T ∧
    ((p9T.inputMove keysRight).move 1).posX = p9T.posX := by
  have h := tool_timer_blocks_movement p9T keysRight 1 rfl
  exact ⟨h.1, (h.2 rfl rfl).1⟩

/-! ### Claim C10: hotbar slot validity -/

/-- C10: the `selected_slot` setter stores the assigned integer modulo the
hotbar length, maps an unconvertible value to slot 0, and therefore always
yields a valid hotbar index. -/
theorem selected_slot_always_valid :
    (∀ v : Int, setSelectedSlot (some v) = (v % (hotbar.length : Int)).toNat)
    ∧ setSelectedSlot none = 0
    ∧ (∀ o : Option Int, setSelectedSlot o < hotbar.length) := by
  refine ⟨fun v => rfl, rfl, fun o => ?_⟩
  have hs : setSelectedSlot o = ((o.getD 0) % (5 : Int)).toNat := by
    have h : setSelectedSlot o = ((o.getD 0) % ((5 : Nat) : Int)).toNat := rfl
    rw [h]
    norm_num
  have hl : hotbar.length = 5 := rfl
  rw [hs, hl]
  omega

/-! ### Claim C7: watering on tool-timer completion -/

theorem mem_getCell_bounds {f : Flag} {g : Grid} {x y : Int}
    (h : f ∈ getCell g x y) :
    y.toNat < g.length ∧ x.toNat < (g.getD y.toNat []).length := by
  constructor
  · by_contra hy
    push_neg at hy
    rw [getCell, List.getD_eq_default _ _ hy, List.getD_nil] at h
    exact absurd h (List.not_mem_nil f)
  · by_contra hx
    push_neg at hx
    rw [getCell, List.getD_eq_default _ _ hx] at h
    exact absurd h (List.not_mem_nil f)

theorem getCell_congr (g : Grid) {x y x' y' : Int}
    (hx : x.toNat = x'.toNat) (hy : y.toNat = y'.toNat) :
    getCell g x y = getCell g x' y' := by
  simp [getCell, hx, hy]

theorem in_bounds_spec {s : SoilLayer} {a b : Int} (h : s.in_bounds a b = true) :
    0 ≤ a ∧ a < (s.grid_w : Int) ∧ 0 ≤ b ∧ b < (s.grid_h : Int) := by
  simp only [SoilLayer.in_bounds, Bool.and_eq_true, decide_eq_true_eq] at h
  tauto

/-- `water` either leaves the layer unchanged, or appends the watered flag to
an in-bounds, tilled, not-yet-watered target cell. -/
theorem water_eq (s : SoilLayer) (a b : Int) :
    (s.water a b).2 = s ∨
    ((s.water a b).2
        = { s with grid := setCell s.grid a b (getCell s.grid a b ++ [Flag.W]) }
      ∧ s.in_bounds a b = true ∧ Flag.X ∈ getCell s.grid a b
      ∧ Flag.W ∉ getCell s.grid a b) := by
  simp only [SoilLayer.water]
  split
  next => left; rfl
  next h =>
    rw [Bool.not_eq_true, Bool.not_eq_false] at h
    split
    next => left; rfl
    next hX =>
      rw [not_not] at hX
      split
      next => left; rfl
      next hW => exact Or.inr ⟨rfl, h, hX, hW⟩

theorem water_preserves_mem (s : SoilLayer) (a b x y : Int) {f : Flag}
    (h : f ∈ getCell s.grid x y) : f ∈ getCell (s.water a b).2.grid x y := by
  rcases water_eq s a b with he | ⟨he, -, -, -⟩ <;> rw [he]
  · exact h
  · by_cases hxy : x.toNat = a.toNat ∧ y.toNat = b.toNat
    · have hb := mem_getCell_bounds (getCell_congr s.grid hxy.1 hxy.2 ▸ h)
      have hcell : getCell (setCell s.grid a b (getCell s.grid a b ++ [Flag.W])) x y
          = getCell s.grid a b ++ [Flag.W] := by
        rw [getCell_congr _ hxy.1 hxy.2]
        exact getCell_setCell_same s.grid a b _ hb.1 hb.2
      rw [hcell]
      exact List.mem_append_left _ (getCell_congr s.grid hxy.1 hxy.2 ▸ h)
    · rw [getCell_setCell_ne s.grid a b x y _ hxy]
      exact h

theorem water_waters_target (s : SoilLayer) (a b : Int)
    (hb : s.in_bounds a b = true) (hx : Flag.X ∈ getCell s.grid a b) :
    Flag.W ∈ getCell (s.water a b).2.grid a b := by
  rcases water_eq s a b with he | ⟨he, -, -, hW⟩
  · -- unchanged: this only happens when the tile is already watered or the
    -- call failed; rule out failure using the hypotheses
    simp only [SoilLayer.water] at he ⊢
    rw [if_neg (by simp [hb]), if_neg (not_not_intro hx)]
    split
    next hW => simpa using hW
    next hW =>
      have hbnd := mem_getCell_bounds hx
      rw [getCell_setCell_same s.grid a b _ hbnd.1 hbnd.2]
      simp
  · rw [he]
    have hbnd := mem_getCell_bounds hx
    have : getCell (setCell s.grid a b (getCell s.grid a b ++ [Flag.W])) a b
        = getCell s.grid a b ++ [Flag.W] :=
      getCell_setCell_same s.grid a b _ hbnd.1 hbnd.2
    rw [this]
    simp

theorem water_in_bounds (s : SoilLayer) (a b x y : Int) :
    (s.water a b).2.in_bounds x y = s.in_bounds x y := by
  rcases water_eq s a b with he | ⟨he, -, -, -⟩
  · rw [he]
  · rw [he]
    rfl

theorem foldWater_preserves_mem (tx ty : Int) (l : List (Int × Int))
    (acc : Bool × SoilLayer) (x y : Int) {f : Flag}
    (h : f ∈ getCell acc.2.grid x y) :
    f ∈ getCell ((l.foldl (waterStep tx ty) acc).2).grid x y := by
  induction l generalizing acc with
  | nil => exact h
  | cons d l ih =>
    exact ih _ (water_preserves_mem acc.2 (tx + d.1) (ty + d.2) x y h)

theorem foldWater_covers (tx ty : Int) : ∀ (l : List (Int × Int))
    (acc : Bool × SoilLayer) (d : Int × Int), d ∈ l →
    acc.2.in_bounds (tx + d.1) (ty + d.2) = true →
    Flag.X ∈ getCell acc.2.grid (tx + d.1) (ty + d.2) →
    Flag.W ∈ getCell ((l.foldl (waterStep tx ty) acc).2).grid (tx + d.1) (ty + d.2)
  | [], _, _, hd, _, _ => absurd hd (List.not_mem_nil _)
  | e :: l, acc, d, hd, hb, hx => by
    rcases List.mem_cons.mp hd with rfl | hd'
    · exact foldWater_preserves_mem tx ty l _ _ _
        (water_waters_target acc.2 _ _ hb hx)
    · exact foldWater_covers tx ty l _ d hd'
        ((water_in_bounds acc.2 (tx + e.1) (ty + e.2) _ _).trans hb)
        (water_preserves_mem acc.2 (tx + e.1) (ty + e.2) _ _ hx)

/-- A 3x3 all-farmable, all-tilled layer. -/
def soil7 : SoilLayer :=
  { tile_size := 48, grid_w := 3, grid_h := 3,
    grid := [[[Flag.F, Flag.X], [Flag.F, Flag.X], [Flag.F, Flag.X]],
             [[Flag.F, Flag.X], [Flag.F, Flag.X], [Flag.F, Flag.X]],
             [[Flag.F, Flag.X], [Flag.F, Flag.X], [Flag.F, Flag.X]]],
    plants := [], raining := false, assets := fun _ => [] }

/-- C7 counterexample: when the tool-use timer completes with tool 'water'
targeting pixel (72,72) (tile (1,1)), only the single target tile is watered:
neighbor (0,1) is in bounds and tilled yet stays unwatered, refuting the
claimed 3x3 watering. -/
theorem water_timer_single_tile :
    Flag.W ∈ getCell (onToolUseDoneWater soil7 (72, 72)).grid 1 1 ∧
    Flag.W ∉ getCell (onToolUseDoneWater soil7 (72, 72)).grid 0 1 ∧
    soil7.in_bounds 0 1 = true ∧ Flag.X ∈ getCell soil7.grid 0 1 := by
  decide

/-- C7 amended: the timer-completion path for the water tool
(`_on_tool_use_done`) waters only the single captured target tile, leaving
every other tile unchanged; the 3x3 neighborhood watering is implemented in
`Player.use_tool_water`, which attempts watering on all nine neighbor tiles
(any in-bounds tilled neighbor ends up watered). -/
theorem water_action_resolution (s : SoilLayer) (tp : Int × Int) :
    (∀ x y : Int, 0 ≤ x → 0 ≤ y →
      ¬(x = tp.1.fdiv (s.tile_size : Int) ∧ y = tp.2.fdiv (s.tile_size : Int)) →
      getCell (onToolUseDoneWater s tp).grid x y = getCell s.grid x y)
    ∧ (∀ tx ty dx dy : Int, dx ∈ ([-1, 0, 1] : List Int) →
      dy ∈ ([-1, 0, 1] : List Int) →
      s.in_bounds (tx + dx) (ty + dy) = true →
      Flag.X ∈ getCell s.grid (tx + dx) (ty + dy) →
      Flag.W ∈ getCell (useToolWater s tx ty).2.grid (tx + dx) (ty + dy)) := by
  constructor
  · intro x y hx hy hne
    unfold onToolUseDoneWater
    rcases water_eq s (tp.1.fdiv (s.tile_size : Int)) (tp.2.fdiv (s.tile_size : Int))
      with he | ⟨he, hbnd, -, -⟩ <;> rw [he]
    have hpos := in_bounds_spec hbnd
    apply getCell_setCell_ne
    intro hcon
    exact hne ⟨by omega, by omega⟩
  · intro tx ty dx dy hdx hdy hb hmem
    have hd : (dx, dy) ∈ waterOffsets := by
      fin_cases hdx <;> fin_cases hdy <;> decide
    exact foldWater_covers tx ty waterOffsets (false, s) (dx, dy) hd hb hmem

/-- Witness for C7's amended theorem: on the 3x3 tilled layer, the timer path
leaves tile (0,0) untouched when targeting (1,1), and `use_tool_water`
reaches the corner neighbor. -/
theorem water_action_resolution_witness :
    getCell (onToolUseDoneWater soil7 (72, 72)).grid 0 0 = getCell soil7.grid 0 0 ∧
    Flag.W ∈ getCell (useToolWater soil7 0 0).2.grid (0 + 1) (0 + 1) := by
  have h := water_action_resolution soil7 (72, 72)
  exact ⟨h.1 0 0 (by decide) (by decide) (by decide),
    (water_action_resolution soil7 (0, 0)).2 0 0 1 1 (by decide) (by decide)
      (by decide) (by decide)⟩

/-! ### Claim C5: growth on update_plants -/

theorem advance_growth_stage (p : Plant) :
    (p.advance).growth_stage =
      if p.growth_stage < (p.max_stage : ℚ) then p.growth_stage + 1
      else p.growth_stage := by
  by_cases hlt : p.growth_stage < (p.max_stage : ℚ)
  · rw [if_pos hlt]
    simp only [Plant.advance, if_pos hlt]
    split <;> split <;> rfl
  · rw [if_neg hlt]
    simp only [Plant.advance, if_neg hlt]

theorem advance_keeps (p : Plant) :
    (p.advance).tx = p.tx ∧ (p.advance).ty = p.ty
    ∧ (p.advance).max_stage = p.max_stage
    ∧ (p.advance).tile_size = p.tile_size
    ∧ (p.advance).plant_type = p.plant_type := by
  simp only [Plant.advance]
  split
  · split <;> split <;> exact ⟨rfl, rfl, rfl, rfl, rfl⟩
  · exact ⟨rfl, rfl, rfl, rfl, rfl⟩

/-- A corn crop (fallback sprite) already at its maximal stage. -/
def plant5 : Plant :=
  { mkPlant (fun _ => []) 48 0 0 "corn" with growth_stage := 3, harvestable := true }

/-- A 1x1 layer whose only tile is farmable, tilled, watered and planted,
holding the mature crop. -/
def soil5 : SoilLayer :=
  { tile_size := 48, grid_w := 1, grid_h := 1,
    grid := [[[Flag.F, Flag.X, Flag.W, Flag.P]]],
    plants := [plant5], raining := false, assets := fun _ => [] }

/-- C5 counterexample: the crop's tile (0,0) carries the watered flag and it
is not raining, yet `update_plants` does not advance the crop's growth stage
by one step — `advance` saturates at `max_stage`, so the stage stays at 3. -/
theorem mature_watered_crop_not_advanced :
    Flag.W ∈ getCell soil5.grid plant5.tx plant5.ty ∧
    soil5.raining = false ∧
    ((soil5.update_plants).plants.getD 0 default).growth_stage
        = plant5.growth_stage ∧
    plant5.growth_stage ≠ plant5.growth_stage + 1 := by
  refine ⟨by decide, rfl, by decide, ?_⟩
  show (3 : ℚ) ≠ 3 + 1
  norm_num

/-- C5 amended: one `update_plants` call advances the i-th crop's growth
stage by one exactly when the crop is still below its max stage AND the tile
containing its sprite rect center is watered (or the grid is raining);
otherwise the stage is unchanged.  The sprite-center tile coincides with the
stored planted tile `(tx,ty)` whenever the sprite geometry satisfies
`0 ≤ tile_size + y_offset - (image_h - image_h/2) < tile_size` (as the
default tile-sized sprite does), so for such crops the watered check does
read the planted tile. -/
theorem update_plants_growth (s : SoilLayer) (i : Nat) (hi : i < s.plants.length) :
    (((s.update_plants).plants.getD i default).growth_stage =
      if ((s.check_watered ((s.plants.getD i default).centerx,
              (s.plants.getD i default).centery) || s.raining) = true)
          ∧ (s.plants.getD i default).growth_stage
              < ((s.plants.getD i default).max_stage : ℚ)
        then (s.plants.getD i default).growth_stage + 1
        else (s.plants.getD i default).growth_stage)
    ∧ (∀ p : Plant, 0 < p.tile_size →
        0 ≤ (p.tile_size : Int) + p.y_offset - (p.image_h : Int)
            + ((p.image_h / 2 : Nat) : Int) →
        (p.tile_size : Int) + p.y_offset - (p.image_h : Int)
            + ((p.image_h / 2 : Nat) : Int) < (p.tile_size : Int) →
        p.centerx.fdiv (p.tile_size : Int) = p.tx
        ∧ p.centery.fdiv (p.tile_size : Int) = p.ty) := by
  constructor
  · rw [List.getD_eq_getElem?_getD, List.getD_eq_getElem?_getD,
      show (s.update_plants).plants = s.plants.map (fun p =>
        if s.check_watered (p.centerx, p.centery) || s.raining then p.advance
        else p) from rfl,
      List.getElem?_map, List.getElem?_eq_getElem hi]
    simp only [Option.map_some', Option.getD_some]
    by_cases hw : (s.check_watered ((s.plants[i]).centerx, (s.plants[i]).centery)
        || s.raining) = true
    · rw [if_pos hw, advance_growth_stage]
      by_cases hlt : (s.plants[i]).growth_stage < ((s.plants[i]).max_stage : ℚ)
      · rw [if_pos hlt, if_pos ⟨hw, hlt⟩]
      · have hcond : ¬((s.check_watered ((s.plants[i]).centerx,
            (s.plants[i]).centery) || s.raining) = true
            ∧ (s.plants[i]).growth_stage < ((s.plants[i]).max_stage : ℚ)) :=
          fun hc => hlt hc.2
        rw [if_neg hlt, if_neg hcond]
    · have hcond : ¬((s.check_watered ((s.plants[i]).centerx,
          (s.plants[i]).centery) || s.raining) = true
          ∧ (s.plants[i]).growth_stage < ((s.plants[i]).max_stage : ℚ)) :=
        fun hc => hw hc.1
      rw [if_neg hw, if_neg hcond]
  · intro p hts h0 h1
    have hts' : (p.tile_size : Int) ≠ 0 := by exact_mod_cast hts.ne'
    have htsle : (0 : Int) ≤ (p.tile_size : Int) := by positivity
    constructor
    · have hx : p.centerx = ((p.tile_size / 2 : Nat) : Int) + p.tx * (p.tile_size : Int) := by
        simp only [Plant.centerx, Plant.rect]
        ring
      rw [hx, Int.fdiv_eq_ediv _ htsle, Int.add_mul_ediv_right _ _ hts',
        Int.ediv_eq_zero_of_lt (by positivity)
          (by exact_mod_cast Nat.div_lt_self hts (by norm_num)), Int.zero_add]
    · have hy : p.centery = ((p.tile_size : Int) + p.y_offset - (p.image_h : Int)
          + ((p.image_h / 2 : Nat) : Int)) + p.ty * (p.tile_size : Int) := by
        simp only [Plant.centery, Plant.rect]
        ring
      rw [hy, Int.fdiv_eq_ediv _ htsle, Int.add_mul_ediv_right _ _ hts',
        Int.ediv_eq_zero_of_lt h0 h1, Int.zero_add]

/-- Witness for C5's amended theorem at the mature-crop layer: the stage stays
at 3, and the default-sprite geometry maps the sprite center to tile (0,0). -/
theorem update_plants_growth_witness :
    ((soil5.update_plants).plants.getD 0 default).growth_stage
        = (soil5.plants.getD 0 default).growth_stage ∧
    plant5.centerx.fdiv (plant5.tile_size : Int) = plant5.tx ∧
    plant5.centery.fdiv (plant5.tile_size : Int) = plant5.ty := by
  have h := update_plants_growth soil5 0 (by decide)
  have h2 := h.2 plant5 (by decide) (by decide) (by decide)
  refine ⟨?_, h2.1, h2.2⟩
  rw [h.1, if_neg]
  rintro ⟨-, hlt⟩
  revert hlt
  decide

/-! ### Claim C6: growth monotonicity -/

theorem mkPlant_growth_stage (assets : String → List (Nat × Nat)) (ts : Nat)
    (x y : Int) (t : String) : (mkPlant assets ts x y t).growth_stage = 0 := by
  unfold mkPlant
  split <;> rfl

/-- A crop stage that is a natural number within `[0, max_stage]` — true of
every crop `plant()` creates, and preserved by `advance`. -/
def stageOK (p : Plant) : Prop :=
  ∃ k : ℕ, p.growth_stage = (k : ℚ) ∧ k ≤ p.max_stage

theorem advance_bounds (p : Plant) (h : stageOK p) :
    p.growth_stage ≤ (p.advance).growth_stage
    ∧ (p.advance).growth_stage ≤ p.growth_stage + 1
    ∧ (p.advance).growth_stage ≤ ((p.advance).max_stage : ℚ)
    ∧ (p.growth_stage = (p.max_stage : ℚ) →
        (p.advance).growth_stage = p.growth_stage)
    ∧ stageOK p.advance := by
  obtain ⟨k, hk, hle⟩ := h
  have hmax : (p.advance).max_stage = p.max_stage := (advance_keeps p).2.2.1
  rw [stageOK, advance_growth_stage, hmax]
  by_cases hlt : p.growth_stage < (p.max_stage : ℚ)
  · rw [if_pos hlt]
    have hklt : k < p.max_stage := by
      rw [hk] at hlt
      exact_mod_cast hlt
    refine ⟨by linarith, le_refl _, ?_, ?_, ⟨k + 1, ?_, by omega⟩⟩
    · rw [hk]
      have : ((k + 1 : ℕ) : ℚ) ≤ (p.max_stage : ℚ) := by exact_mod_cast hklt
      push_cast at this ⊢
      linarith
    · intro heq
      rw [heq] at hlt
      exact absurd hlt (lt_irrefl _)
    · rw [hk]
      push_cast
      ring
  · rw [if_neg hlt]
    refine ⟨le_refl _, by linarith, ?_, fun _ => rfl, ⟨k, hk, hle⟩⟩
    rw [hk]
    exact_mod_cast hle

theorem update_plants_mem (s : SoilLayer) {q : Plant}
    (hq : q ∈ (s.update_plants).plants) :
    ∃ p ∈ s.plants, q = p ∨ q = p.advance := by
  obtain ⟨p, hp, hfp⟩ := List.mem_map.mp hq
  refine ⟨p, hp, ?_⟩
  by_cases hc : (s.check_watered (p.centerx, p.centery) || s.raining) = true
  · rw [if_pos hc] at hfp
    exact Or.inr hfp.symm
  · rw [if_neg hc] at hfp
    exact Or.inl hfp.symm

theorem update_plants_stageOK (s : SoilLayer)
    (h : ∀ p ∈ s.plants, stageOK p) :
    ∀ p ∈ (s.update_plants).plants, stageOK p := by
  intro q hq
  obtain ⟨p, hp, hc⟩ := update_plants_mem s hq
  rcases hc with hc | hc
  · rw [hc]
    exact h p hp
  · rw [hc]
    exact (advance_bounds p (h p hp)).2.2.2.2

theorem iterate_update_stageOK (s : SoilLayer) (n : Nat)
    (h : ∀ p ∈ s.plants, stageOK p) :
    ∀ p ∈ (SoilLayer.update_plants^[n] s).plants, stageOK p := by
  induction n with
  | zero => simpa using h
  | succ n ih =>
    rw [Function.iterate_succ_apply']
    exact update_plants_stageOK _ ih

theorem update_plants_length (s : SoilLayer) :
    (s.update_plants).plants.length = s.plants.length := by
  simp [SoilLayer.update_plants]

theorem iterate_update_length (s : SoilLayer) (n : Nat) :
    (SoilLayer.update_plants^[n] s).plants.length = s.plants.length := by
  induction n with
  | zero => rfl
  | succ n ih => rw [Function.iterate_succ_apply', update_plants_length, ih]

theorem update_step_bounds (t : SoilLayer) (i : Nat)
    (hok : ∀ p ∈ t.plants, stageOK p) :
    (t.plants.getD i default).growth_stage
        ≤ ((t.update_plants).plants.getD i default).growth_stage
    ∧ ((t.update_plants).plants.getD i default).growth_stage
        ≤ (t.plants.getD i default).growth_stage + 1
    ∧ (i < t.plants.length →
        ((t.update_plants).plants.getD i default).growth_stage
          ≤ (((t.update_plants).plants.getD i default).max_stage : ℚ))
    ∧ ((t.plants.getD i default).growth_stage
          = ((t.plants.getD i default).max_stage : ℚ) →
        ((t.update_plants).plants.getD i default).growth_stage
          = (t.plants.getD i default).growth_stage) := by
  by_cases hi : i < t.plants.length
  · have hDnew : (t.update_plants).plants.getD i default
        = (if (t.check_watered ((t.plants[i]).centerx, (t.plants[i]).centery)
              || t.raining) = true
           then (t.plants[i]).advance else t.plants[i]) := by
      rw [List.getD_eq_getElem?_getD,
        show (t.update_plants).plants = t.plants.map (fun p =>
          if t.check_watered (p.centerx, p.centery) || t.raining then p.advance
          else p) from rfl,
        List.getElem?_map, List.getElem?_eq_getElem hi]
      simp only [Option.map_some', Option.getD_some]
    have hDold : t.plants.getD i default = t.plants[i] := by
      rw [List.getD_eq_getElem?_getD, List.getElem?_eq_getElem hi]
      rfl
    rw [hDnew, hDold]
    have hok' := hok _ (List.getElem_mem hi)
    by_cases hw : (t.check_watered ((t.plants[i]).centerx, (t.plants[i]).centery)
        || t.raining) = true
    · rw [if_pos hw]
      have hb := advance_bounds _ hok'
      exact ⟨hb.1, hb.2.1, fun _ => hb.2.2.1, hb.2.2.2.1⟩
    · rw [if_neg hw]
      refine ⟨le_refl _, by linarith, fun _ => ?_, fun _ => rfl⟩
      obtain ⟨k, hk, hle⟩ := hok'
      rw [hk]
      exact_mod_cast hle
  · have h1 : t.plants.getD i default = default :=
      List.getD_eq_default _ _ (by omega)
    have h2 : (t.update_plants).plants.getD i default = default :=
      List.getD_eq_default _ _ (by rw [update_plants_length]; omega)
    rw [h1, h2]
    exact ⟨le_refl _, by linarith, fun hcon => absurd hcon hi, fun _ => rfl⟩

/-- C6: a crop created by `plant()` starts at growth stage 0, and along any
sequence of `update_plants()` calls the i-th crop's stage is non-decreasing,
increases by at most 1 per call, never exceeds its `max_stage`, and once at
`max_stage` further calls leave it unchanged (maturity is absorbing). -/
theorem growth_monotonicity (s : SoilLayer) (i n : Nat)
    (hall : ∀ p ∈ s.plants, stageOK p) :
    (∀ assets ts x y t, (mkPlant assets ts x y t).growth_stage = 0)
    ∧ ((SoilLayer.update_plants^[n] s).plants.getD i default).growth_stage
        ≤ ((SoilLayer.update_plants^[n + 1] s).plants.getD i default).growth_stage
    ∧ ((SoilLayer.update_plants^[n + 1] s).plants.getD i default).growth_stage
        ≤ ((SoilLayer.update_plants^[n] s).plants.getD i default).growth_stage + 1
    ∧ (i < s.plants.length →
        ((SoilLayer.update_plants^[n + 1] s).plants.getD i default).growth_stage
          ≤ (((SoilLayer.update_plants^[n + 1] s).plants.getD i
                default).max_stage : ℚ))
    ∧ (((SoilLayer.update_plants^[n] s).plants.getD i default).growth_stage
          = (((SoilLayer.update_plants^[n] s).plants.getD i
                default).max_stage : ℚ) →
        ((SoilLayer.update_plants^[n + 1] s).plants.getD i default).growth_stage
          = ((SoilLayer.update_plants^[n] s).plants.getD i
              default).growth_stage) := by
  have hiter := iterate_update_stageOK s n hall
  have hstep := update_step_bounds (SoilLayer.update_plants^[n] s) i hiter
  rw [Function.iterate_succ_apply']
  refine ⟨fun a ts x y t => mkPlant_growth_stage a ts x y t,
    hstep.1, hstep.2.1, fun hi => hstep.2.2.1 ?_, hstep.2.2.2⟩
  rw [iterate_update_length]
  exact hi

/-- Witness for C6 at the mature-crop layer: one call leaves the stage
non-decreasing. -/
theorem growth_monotonicity_witness :
    ((SoilLayer.update_plants^[0] soil5).plants.getD 0 default).growth_stage
      ≤ ((SoilLayer.update_plants^[0 + 1] soil5).plants.getD 0 default).growth_stage := by
  refine (growth_monotonicity soil5 0 0 ?_).2.1
  intro p hp
  have hp5 : p = plant5 := List.mem_singleton.mp hp
  rw [hp5]
  exact ⟨3, by norm_num [plant5, mkPlant], by norm_num [plant5, mkPlant]⟩

/-! ### Claim C1: save/restore round trip -/

/-- The crop tuple the claim compares: tile coords, type, growth stage. -/
def plantTuple (p : Plant) : Int × Int × String × ℚ :=
  (p.tx, p.ty, p.plant_type, p.growth_stage)

/-- The same tuple read off a saved descriptor. -/
def descTuple (d : PlantDesc) : Int × Int × String × ℚ :=
  (d.x, d.y, d.type, d.growth_stage)

theorem mkPlant_fields (A : String → List (Nat × Nat)) (ts : Nat) (x y : Int)
    (t : String) :
    (mkPlant A ts x y t).tx = x ∧ (mkPlant A ts x y t).ty = y
    ∧ (mkPlant A ts x y t).plant_type = t := by
  unfold mkPlant
  split <;> exact ⟨rfl, rfl, rfl⟩

theorem restoredPlant_tuple (A : String → List (Nat × Nat)) (ts : Nat)
    (x y : Int) (d : PlantDesc) :
    plantTuple (restoredPlant A ts x y d) = (x, y, d.type, d.growth_stage) := by
  obtain ⟨h1, h2, h3⟩ := mkPlant_fields A ts x y d.type
  simp only [restoredPlant, plantTuple]
  split
  next q heq =>
    have hq : q.tx = x ∧ q.ty = y ∧ q.plant_type = d.type
        ∧ q.growth_stage = d.growth_stage := by
      split at heq
      · cases heq
        exact ⟨h1, h2, h3, rfl⟩
      · obtain ⟨fr, hfr, hqe⟩ := Option.map_eq_some'.mp heq
        rw [← hqe]
        exact ⟨h1, h2, h3, rfl⟩
    simp [hq.1, hq.2.1, hq.2.2.1, hq.2.2.2]
  next heq =>
    simp [h1, h2, h3]

theorem restorePlantStep_eq (acc : SoilLayer) (d : PlantDesc)
    (h1 : 0 ≤ d.x) (h2 : d.x < (acc.grid_w : Int)) (h3 : 0 ≤ d.y)
    (h4 : d.y < (acc.grid_h : Int)) (h5 : Flag.P ∈ getCell acc.grid d.x d.y) :
    restorePlantStep acc d
      = { acc with plants := acc.plants
            ++ [restoredPlant acc.assets acc.tile_size d.x d.y d] } := by
  have hw0 : 0 < acc.grid_w := by
    have h : (0 : Int) < (acc.grid_w : Int) := lt_of_le_of_lt h1 h2
    exact_mod_cast h
  have hh0 : 0 < acc.grid_h := by
    have h : (0 : Int) < (acc.grid_h : Int) := lt_of_le_of_lt h3 h4
    exact_mod_cast h
  have htx : (if 0 < acc.grid_w then max 0 (min d.x ((acc.grid_w : Int) - 1))
      else 0) = d.x := by
    rw [if_pos hw0]
    omega
  have hty : (if 0 < acc.grid_h then max 0 (min d.y ((acc.grid_h : Int) - 1))
      else 0) = d.y := by
    rw [if_pos hh0]
    omega
  have hbnd := mem_getCell_bounds h5
  simp only [restorePlantStep, htx, hty, if_pos hbnd, if_pos h5]

theorem restore_fold : ∀ (ds : List PlantDesc) (acc : SoilLayer),
    (∀ d ∈ ds, 0 ≤ d.x ∧ d.x < (acc.grid_w : Int) ∧ 0 ≤ d.y
      ∧ d.y < (acc.grid_h : Int) ∧ Flag.P ∈ getCell acc.grid d.x d.y) →
    (ds.foldl restorePlantStep acc).grid = acc.grid
    ∧ (ds.foldl restorePlantStep acc).plants.map plantTuple
        = acc.plants.map plantTuple ++ ds.map descTuple
  | [], acc, _ => ⟨rfl, by simp⟩
  | d :: ds, acc, hd => by
    have h0 := hd d (List.mem_cons_self d ds)
    have hstep := restorePlantStep_eq acc d h0.1 h0.2.1 h0.2.2.1 h0.2.2.2.1
      h0.2.2.2.2
    have hrec := restore_fold ds (restorePlantStep acc d) (fun e he => by
      rw [hstep]
      exact hd e (List.mem_cons_of_mem d he))
    rw [List.foldl_cons] at *
    constructor
    · rw [hrec.1, hstep]
    · rw [hrec.2, hstep]
      simp only [List.map_append, List.map_cons, List.map_nil, List.append_assoc,
        List.cons_append, List.nil_append]
      rw [restoredPlant_tuple]
      rfl

/-- C1: saving the soil grid and plant list as `Farm.save_game` does, and
immediately restoring the snapshot with `SoilLayer.restore_state`, reproduces
the same flag set at every tile coordinate and the same multiset of
(tile, crop-type, growth-stage) crop tuples — for every layer whose grid
dimensions match the grid and whose crops sit in bounds on Planted tiles
(the data-model invariants of a well-formed layer). -/
theorem save_restore_roundtrip (s : SoilLayer)
    (hw : s.grid_w = (s.grid.headD []).length)
    (hh : s.grid_h = s.grid.length)
    (hp : ∀ p ∈ s.plants, 0 ≤ p.tx ∧ p.tx < (s.grid_w : Int) ∧ 0 ≤ p.ty
      ∧ p.ty < (s.grid_h : Int) ∧ Flag.P ∈ getCell s.grid p.tx p.ty) :
    (∀ tx ty : Int,
      getCell (s.restore_state (some (saveSoil s).grid) (savePlants s)).grid tx ty
        = getCell s.grid tx ty)
    ∧ ((s.restore_state (some (saveSoil s).grid) (savePlants s)).plants.map
          plantTuple : Multiset (Int × Int × String × ℚ))
        = (s.plants.map plantTuple : Multiset (Int × Int × String × ℚ)) := by
  have hre : s.restore_state (some (saveSoil s).grid) (savePlants s)
      = (savePlants s).foldl restorePlantStep
          { s with grid := s.grid, grid_h := s.grid.length,
                   grid_w := (s.grid.headD []).length, plants := [] } := rfl
  have hfold := restore_fold (savePlants s)
    { s with grid := s.grid, grid_h := s.grid.length,
             grid_w := (s.grid.headD []).length, plants := [] }
    (fun d hdm => by
      obtain ⟨p, hpm, hpd⟩ := List.mem_map.mp hdm
      have h := hp p hpm
      rw [hw] at h
      rw [hh] at h
      rw [← hpd]
      exact h)
  rw [hre]
  constructor
  · intro tx ty
    rw [hfold.1]
  · have hlist := hfold.2
    have hmm : (savePlants s).map descTuple = s.plants.map plantTuple := by
      rw [savePlants, List.map_map]
      rfl
    rw [hlist, hmm]
    simp

/-- A 1x1 layer with one corn crop on its Planted tile. -/
def soil1 : SoilLayer :=
  { tile_size := 48, grid_w := 1, grid_h := 1,
    grid := [[[Flag.F, Flag.X, Flag.P]]],
    plants := [mkPlant (fun _ => []) 48 0 0 "corn"],
    raining := false, assets := fun _ => [] }

/-- Witness for C1 at the 1x1 layer. -/
theorem save_restore_roundtrip_witness :
    getCell (soil1.restore_state (some (saveSoil soil1).grid)
        (savePlants soil1)).grid 0 0 = getCell soil1.grid 0 0 ∧
    ((soil1.restore_state (some (saveSoil soil1).grid)
          (savePlants soil1)).plants.map plantTuple
        : Multiset (Int × Int × String × ℚ))
      = (soil1.plants.map plantTuple : Multiset (Int × Int × String × ℚ)) := by
  have h := save_restore_roundtrip soil1 (by decide) (by decide) (by decide)
  exact ⟨h.1 0 0, h.2⟩

/-! ### Claim C4: tile invariants -/

/-- The per-cell flag invariants: Watered requires Tilled, Planted requires
Tilled. -/
def cellInvB (c : Cell) : Bool :=
  (!(decide (Flag.W ∈ c)) || decide (Flag.X ∈ c))
  && (!(decide (Flag.P ∈ c)) || decide (Flag.X ∈ c))

/-- The flag invariants at every cell of the grid. -/
def gridInvB (g : Grid) : Bool :=
  g.all fun row => row.all cellInvB

/-- Every live crop sits in bounds on a tile flagged Planted. -/
def plantsPlacedB (s : SoilLayer) : Bool :=
  s.plants.all fun p =>
    s.in_bounds p.tx p.ty && decide (Flag.P ∈ getCell s.grid p.tx p.ty)

/-- Distinct crops occupy distinct tiles. -/
def plantsDistinctB : List Plant → Bool
  | [] => true
  | p :: ps =>
    ps.all (fun q => !(decide (p.tx = q.tx) && decide (p.ty = q.ty)))
      && plantsDistinctB ps

/-- The strengthened layer invariant: flag implications at every cell, every
crop in bounds on a Planted tile, and crops on pairwise distinct tiles
(which together imply "at most one live crop per Planted tile"). -/
def invB (s : SoilLayer) : Bool :=
  gridInvB s.grid && plantsPlacedB s && plantsDistinctB s.plants

theorem cellInvB_iff {c : Cell} :
    cellInvB c = true ↔
      ((Flag.W ∈ c → Flag.X ∈ c) ∧ (Flag.P ∈ c → Flag.X ∈ c)) := by
  simp only [cellInvB, Bool.and_eq_true, Bool.or_eq_true, Bool.not_eq_true',
    decide_eq_true_eq, decide_eq_false_iff_not]
  constructor
  · rintro ⟨h1 | h1, h2 | h2⟩ <;> exact ⟨fun hw => by tauto, fun hp => by tauto⟩
  · rintro ⟨h1, h2⟩
    constructor
    · by_cases hw : Flag.W ∈ c
      · exact Or.inr (h1 hw)
      · exact Or.inl hw
    · by_cases hp : Flag.P ∈ c
      · exact Or.inr (h2 hp)
      · exact Or.inl hp

theorem gridInvB_iff {g : Grid} :
    gridInvB g = true ↔ ∀ row ∈ g, ∀ c ∈ row, cellInvB c = true := by
  simp [gridInvB, List.all_eq_true]

theorem plantsPlacedB_iff {s : SoilLayer} :
    plantsPlacedB s = true ↔
      ∀ p ∈ s.plants, s.in_bounds p.tx p.ty = true
        ∧ Flag.P ∈ getCell s.grid p.tx p.ty := by
  simp [plantsPlacedB, List.all_eq_true, Bool.and_eq_true]

theorem plantsDistinctB_iff : ∀ {l : List Plant},
    plantsDistinctB l = true
      ↔ l.Pairwise fun p q => ¬(p.tx = q.tx ∧ p.ty = q.ty)
  | [] => by simp [plantsDistinctB]
  | p :: ps => by
    rw [List.pairwise_cons, ← plantsDistinctB_iff]
    simp only [plantsDistinctB, Bool.and_eq_true, List.all_eq_true,
      Bool.not_eq_true', Bool.and_eq_false_iff, decide_eq_false_iff_not]
    constructor
    · rintro ⟨h1, h2⟩
      exact ⟨fun q hq hc => by rcases h1 q hq with h | h <;> tauto, h2⟩
    · rintro ⟨h1, h2⟩
      refine ⟨fun q hq => ?_, h2⟩
      by_cases hx : p.tx = q.tx
      · exact Or.inr fun hy => h1 q hq ⟨hx, hy⟩
      · exact Or.inl hx

theorem invB_iff {s : SoilLayer} :
    invB s = true ↔ gridInvB s.grid = true ∧ plantsPlacedB s = true
      ∧ plantsDistinctB s.plants = true := by
  simp [invB, Bool.and_eq_true, and_assoc]

/-- Any cell of the grid read through `getCell` satisfies the cell invariant
once the grid does (out-of-range reads give the empty cell). -/
theorem gridInvB_getCell {g : Grid} (h : gridInvB g = true) (x y : Int) :
    cellInvB (getCell g x y) = true := by
  rw [gridInvB_iff] at h
  unfold getCell
  by_cases hy : y.toNat < g.length
  · have hrow : g.getD y.toNat [] ∈ g := by
      rw [List.getD_eq_getElem _ _ hy]
      exact List.getElem_mem hy
    by_cases hx : x.toNat < (g.getD y.toNat []).length
    · have hcell : (g.getD y.toNat []).getD x.toNat [] ∈ g.getD y.toNat [] := by
        rw [List.getD_eq_getElem _ _ hx]
        exact List.getElem_mem hx
      exact h _ hrow _ hcell
    · have hxe : (g.getD y.toNat []).length ≤ x.toNat := by omega
      rw [List.getD_eq_default _ _ hxe]
      rfl
  · have hye : g.length ≤ y.toNat := by omega
    rw [List.getD_eq_default _ _ hye]
    rfl

theorem gridInvB_setCell {g : Grid} (tx ty : Int) {c : Cell}
    (hg : gridInvB g = true) (hc : cellInvB c = true) :
    gridInvB (setCell g tx ty c) = true := by
  rw [gridInvB_iff] at hg ⊢
  intro row hrow cell hcell
  rcases List.mem_or_eq_of_mem_set hrow with hrow' | rfl
  · exact hg row hrow' cell hcell
  · rcases List.mem_or_eq_of_mem_set hcell with hcell' | rfl
    · by_cases hy : ty.toNat < g.length
      · have hmem : g.getD ty.toNat [] ∈ g := by
          rw [List.getD_eq_getElem _ _ hy]
          exact List.getElem_mem hy
        exact hg _ hmem cell hcell'
      · rw [List.getD_eq_default _ _ (by omega)] at hcell'
        exact absurd hcell' (List.not_mem_nil _)
    · exact hc

theorem cellInvB_append_X (c : Cell) : cellInvB (c ++ [Flag.X]) = true := by
  rw [cellInvB_iff]
  exact ⟨fun _ => List.mem_append_right _ (by simp),
    fun _ => List.mem_append_right _ (by simp)⟩

theorem cellInvB_append_W {c : Cell} (h : cellInvB c = true)
    (hX : Flag.X ∈ c) : cellInvB (c ++ [Flag.W]) = true := by
  rw [cellInvB_iff] at h ⊢
  refine ⟨fun _ => List.mem_append_left _ hX, fun hp => ?_⟩
  rcases List.mem_append.mp hp with hp | hp
  · exact List.mem_append_left _ (h.2 hp)
  · simp at hp

theorem cellInvB_append_P {c : Cell} (h : cellInvB c = true)
    (hX : Flag.X ∈ c) : cellInvB (c ++ [Flag.P]) = true := by
  rw [cellInvB_iff] at h ⊢
  refine ⟨fun hw => ?_, fun _ => List.mem_append_left _ hX⟩
  rcases List.mem_append.mp hw with hw | hw
  · exact List.mem_append_left _ (h.1 hw)
  · simp at hw

theorem cellInvB_erase_W {c : Cell} (h : cellInvB c = true) :
    cellInvB (c.erase Flag.W) = true := by
  rw [cellInvB_iff] at h ⊢
  constructor
  · intro hw
    exact (List.mem_erase_of_ne (by decide)).mpr
      (h.1 (List.mem_of_mem_erase hw))
  · intro hp
    exact (List.mem_erase_of_ne (by decide)).mpr
      (h.2 (List.mem_of_mem_erase hp))

theorem cellInvB_erase_P {c : Cell} (h : cellInvB c = true) :
    cellInvB (c.erase Flag.P) = true := by
  rw [cellInvB_iff] at h ⊢
  constructor
  · intro hw
    exact (List.mem_erase_of_ne (by decide)).mpr
      (h.1 (List.mem_of_mem_erase hw))
  · intro hp
    exact (List.mem_erase_of_ne (by decide)).mpr
      (h.2 (List.mem_of_mem_erase hp))

theorem mapIdxFrom_mem {α : Type} (f : Nat → α → α) : ∀ (k : Nat) (l : List α)
    {a : α}, a ∈ mapIdxFrom f k l → ∃ i x, x ∈ l ∧ a = f i x
  | _, [], _, h => absurd h (List.not_mem_nil _)
  | k, b :: bs, a, h => by
    rcases List.mem_cons.mp h with h' | h'
    · exact ⟨k, b, List.mem_cons_self b bs, h'⟩
    · obtain ⟨i, x, hx, ha⟩ := mapIdxFrom_mem f (k + 1) bs h'
      exact ⟨i, x, List.mem_cons_of_mem b hx, ha⟩

theorem mapIdxFrom_getD {α : Type} (f : Nat → α → α) (dflt : α) :
    ∀ (k i : Nat) (l : List α),
      (mapIdxFrom f k l).getD i dflt
        = if i < l.length then f (k + i) (l.getD i dflt) else dflt
  | _, _, [] => by simp [mapIdxFrom]
  | k, 0, a :: as => by simp [mapIdxFrom]
  | k, i + 1, a :: as => by
    have hrec := mapIdxFrom_getD f dflt (k + 1) i as
    simp only [mapIdxFrom, List.getD_cons_succ, List.length_cons, hrec]
    by_cases hi : i < as.length
    · rw [if_pos hi, if_pos (by omega)]
      congr 1
      omega
    · rw [if_neg hi, if_neg (by omega)]

/-- Reading a cell of the doubly indexed grid map used by `water_all` and
`remove_water` (where the inner map is gated per-row by the height bound). -/
theorem getCell_gridMap (F : Nat → Cell → Cell) (H : Nat) (g : Grid)
    (x y : Int) (hy : y.toNat < g.length)
    (hx : x.toNat < (g.getD y.toNat []).length) :
    getCell (mapIdxFrom (fun yy row =>
        if yy < H then mapIdxFrom F 0 row else row) 0 g) x y
      = if y.toNat < H then F x.toNat (getCell g x y) else getCell g x y := by
  unfold getCell
  rw [mapIdxFrom_getD, if_pos hy]
  simp only [Nat.zero_add]
  by_cases hYH : y.toNat < H
  · rw [if_pos hYH, if_pos hYH, mapIdxFrom_getD, if_pos hx]
    simp
  · rw [if_neg hYH, if_neg hYH]

/-- Grid extension: every flag present at a coordinate stays present. -/
def GridExtends (g1 g2 : Grid) : Prop :=
  ∀ (f : Flag) (x y : Int), f ∈ getCell g1 x y → f ∈ getCell g2 x y

theorem gridExtends_refl (g : Grid) : GridExtends g g := fun _ _ _ h => h

theorem gridExtends_trans {g1 g2 g3 : Grid} (h12 : GridExtends g1 g2)
    (h23 : GridExtends g2 g3) : GridExtends g1 g3 :=
  fun f x y h => h23 f x y (h12 f x y h)

theorem gridExtends_setCell_append (g : Grid) (tx ty : Int) (l : List Flag) :
    GridExtends g (setCell g tx ty (getCell g tx ty ++ l)) := by
  intro f x y h
  by_cases hxy : x.toNat = tx.toNat ∧ y.toNat = ty.toNat
  · have h' : f ∈ getCell g tx ty := getCell_congr g hxy.1 hxy.2 ▸ h
    have hb := mem_getCell_bounds h'
    rw [getCell_congr _ hxy.1 hxy.2, getCell_setCell_same _ _ _ _ hb.1 hb.2]
    exact List.mem_append_left _ h'
  · rw [getCell_setCell_ne _ _ _ _ _ _ hxy]
    exact h

theorem gridExtends_water_all (s : SoilLayer) :
    GridExtends s.grid (s.water_all).grid := by
  intro f x y h
  have hb := mem_getCell_bounds h
  show f ∈ getCell (mapIdxFrom _ 0 s.grid) x y
  rw [getCell_gridMap _ s.grid_h s.grid x y hb.1 hb.2]
  by_cases hYH : y.toNat < s.grid_h
  · rw [if_pos hYH]
    split
    · exact List.mem_append_left _ h
    · exact h
  · rw [if_neg hYH]
    exact h

/-- `remove_water` keeps every non-W flag in place. -/
theorem remove_water_keeps (s : SoilLayer) (f : Flag) (hf : f ≠ Flag.W)
    (x y : Int) (h : f ∈ getCell s.grid x y) :
    f ∈ getCell (s.remove_water).grid x y := by
  have hb := mem_getCell_bounds h
  show f ∈ getCell (mapIdxFrom _ 0 s.grid) x y
  rw [getCell_gridMap _ s.grid_h s.grid x y hb.1 hb.2]
  by_cases hYH : y.toNat < s.grid_h
  · rw [if_pos hYH]
    split
    · exact (List.mem_erase_of_ne hf).mpr h
    · exact h
  · rw [if_neg hYH]
    exact h

theorem gridInvB_water_all {s : SoilLayer} (h : gridInvB s.grid = true) :
    gridInvB (s.water_all).grid = true := by
  rw [gridInvB_iff] at h ⊢
  intro row hrow cell hcell
  obtain ⟨yy, row0, hrow0, hfr⟩ := mapIdxFrom_mem _ _ _ hrow
  subst hfr
  by_cases hYH : yy < s.grid_h
  · rw [if_pos hYH] at hcell
    obtain ⟨xx, c0, hc0, hfc⟩ := mapIdxFrom_mem _ _ _ hcell
    subst hfc
    have hc0inv := h row0 hrow0 c0 hc0
    split
    next hcond => exact cellInvB_append_W hc0inv hcond.2.1
    next => exact hc0inv
  · rw [if_neg hYH] at hcell
    exact h row0 hrow0 cell hcell

theorem gridInvB_remove_water {s : SoilLayer} (h : gridInvB s.grid = true) :
    gridInvB (s.remove_water).grid = true := by
  rw [gridInvB_iff] at h ⊢
  intro row hrow cell hcell
  obtain ⟨yy, row0, hrow0, hfr⟩ := mapIdxFrom_mem _ _ _ hrow
  subst hfr
  by_cases hYH : yy < s.grid_h
  · rw [if_pos hYH] at hcell
    obtain ⟨xx, c0, hc0, hfc⟩ := mapIdxFrom_mem _ _ _ hcell
    subst hfc
    have hc0inv := h row0 hrow0 c0 hc0
    split
    next => exact cellInvB_erase_W hc0inv
    next => exact hc0inv
  · rw [if_neg hYH] at hcell
    exact h row0 hrow0 cell hcell

theorem plantsPlacedB_extends {s : SoilLayer} {g2 : Grid}
    (hext : GridExtends s.grid g2) (h : plantsPlacedB s = true) :
    plantsPlacedB { s with grid := g2 } = true := by
  rw [plantsPlacedB_iff] at h ⊢
  intro p hp
  exact ⟨(h p hp).1, hext _ _ _ (h p hp).2⟩

theorem invB_water_all {s : SoilLayer} (h : invB s = true) :
    invB s.water_all = true := by
  rw [invB_iff] at h ⊢
  exact ⟨gridInvB_water_all h.1,
    plantsPlacedB_extends (gridExtends_water_all s) h.2.1, h.2.2⟩

theorem invB_till {s : SoilLayer} (tx ty : Int) (h : invB s = true) :
    invB (s.till tx ty).2 = true := by
  simp only [SoilLayer.till]
  split
  next => exact h
  next =>
    split
    next => exact h
    next hf =>
      push_neg at hf
      have hs1 : invB { s with
          grid := setCell s.grid tx ty (getCell s.grid tx ty ++ [Flag.X]) } = true := by
        rw [invB_iff] at h ⊢
        exact ⟨gridInvB_setCell tx ty h.1 (cellInvB_append_X _),
          plantsPlacedB_extends (gridExtends_setCell_append s.grid tx ty [Flag.X])
            h.2.1, h.2.2⟩
      show invB (Prod.snd (true, _)) = true
      split
      next => exact invB_water_all hs1
      next => exact hs1

theorem invB_water {s : SoilLayer} (a b : Int) (h : invB s = true) :
    invB (s.water a b).2 = true := by
  rcases water_eq s a b with he | ⟨he, -, hX, -⟩ <;> rw [he]
  · exact h
  · rw [invB_iff] at h ⊢
    exact ⟨gridInvB_setCell a b h.1
        (cellInvB_append_W (gridInvB_getCell h.1 a b) hX),
      plantsPlacedB_extends (gridExtends_setCell_append s.grid a b [Flag.W])
        h.2.1, h.2.2⟩

theorem invB_remove_water {s : SoilLayer} (h : invB s = true) :
    invB s.remove_water = true := by
  rw [invB_iff] at h ⊢
  have hpl := plantsPlacedB_iff.mp h.2.1
  refine ⟨gridInvB_remove_water h.1, plantsPlacedB_iff.mpr ?_, h.2.2⟩
  intro p hp
  exact ⟨(hpl p hp).1,
    remove_water_keeps s Flag.P (by decide) _ _ (hpl p hp).2⟩

theorem invB_plant {s : SoilLayer} (tx ty : Int) (seed : String)
    (h : invB s = true) : invB (s.plant tx ty seed).2 = true := by
  simp only [SoilLayer.plant]
  split
  next => exact h
  next hb =>
    rw [Bool.not_eq_true, Bool.not_eq_false] at hb
    split
    next => exact h
    next hf =>
      push_neg at hf
      obtain ⟨hX, hP⟩ := hf
      rw [invB_iff] at h ⊢
      obtain ⟨hg, hpl, hdist⟩ := h
      have hbnd := mem_getCell_bounds hX
      refine ⟨gridInvB_setCell tx ty hg
        (cellInvB_append_P (gridInvB_getCell hg tx ty) hX), ?_, ?_⟩
      · rw [plantsPlacedB_iff]
        intro p hp
        rcases List.mem_append.mp hp with hp | hp
        · have hold := (plantsPlacedB_iff.mp hpl) p hp
          exact ⟨hold.1,
            gridExtends_setCell_append s.grid tx ty [Flag.P] _ _ _ hold.2⟩
        · rw [List.mem_singleton] at hp
          subst hp
          obtain ⟨htx, hty, -⟩ := mkPlant_fields s.assets s.tile_size tx ty seed
          rw [htx, hty]
          refine ⟨hb, ?_⟩
          rw [getCell_setCell_same _ _ _ _ hbnd.1 hbnd.2]
          exact List.mem_append_right _ (by simp)
      · rw [plantsDistinctB_iff]
        rw [plantsDistinctB_iff] at hdist
        rw [List.pairwise_append]
        refine ⟨hdist, by simp, ?_⟩
        intro p hp q hq
        rw [List.mem_singleton] at hq
        subst hq
        obtain ⟨htx, hty, -⟩ := mkPlant_fields s.assets s.tile_size tx ty seed
        rw [htx, hty]
        rintro ⟨hex, hey⟩
        have hold := (plantsPlacedB_iff.mp hpl) p hp
        rw [hex, hey] at hold
        exact hP hold.2

theorem invB_update_plants {s : SoilLayer} (h : invB s = true) :
    invB s.update_plants = true := by
  rw [invB_iff] at h ⊢
  obtain ⟨hg, hpl, hdist⟩ := h
  have htile : ∀ r : Plant,
      ((if s.check_watered (r.centerx, r.centery) || s.raining then r.advance
        else r).tx = r.tx
      ∧ (if s.check_watered (r.centerx, r.centery) || s.raining then r.advance
        else r).ty = r.ty) := by
    intro r
    split
    · exact ⟨(advance_keeps r).1, (advance_keeps r).2.1⟩
    · exact ⟨rfl, rfl⟩
  refine ⟨hg, ?_, ?_⟩
  · rw [plantsPlacedB_iff]
    intro q hq
    obtain ⟨p, hp, hc⟩ := update_plants_mem s hq
    have hold := (plantsPlacedB_iff.mp hpl) p hp
    rcases hc with hce | hce <;> rw [hce]
    · exact hold
    · obtain ⟨ht1, ht2, -, -, -⟩ := advance_keeps p
      rw [ht1, ht2]
      exact hold
  · rw [plantsDistinctB_iff] at hdist ⊢
    rw [show (s.update_plants).plants = s.plants.map (fun p =>
        if s.check_watered (p.centerx, p.centery) || s.raining then p.advance
        else p) from rfl, List.pairwise_map]
    refine hdist.imp ?_
    intro p q hpq hcon
    apply hpq
    rw [(htile p).1, (htile p).2, (htile q).1, (htile q).2] at hcon
    exact hcon

theorem pickHarvest_split (r : RectI) : ∀ (l : List Plant) (p : Plant)
    (rest : List Plant), pickHarvest r l = some (p, rest) →
    ∃ l1 l2, l = l1 ++ p :: l2 ∧ rest = l1 ++ l2
  | [], p, rest, h => by simp [pickHarvest] at h
  | q :: qs, p, rest, h => by
    rw [pickHarvest] at h
    split at h
    · cases h
      exact ⟨[], qs, rfl, rfl⟩
    · cases hrec : pickHarvest r qs with
      | none =>
        rw [hrec] at h
        cases h
      | some pr =>
        obtain ⟨p0, rest0⟩ := pr
        rw [hrec] at h
        cases h
        obtain ⟨l1, l2, hl, hr⟩ := pickHarvest_split r qs p rest0 hrec
        refine ⟨q :: l1, l2, ?_, ?_⟩
        · rw [List.cons_append, ← hl]
        · rw [List.cons_append, ← hr]

theorem cellInvB_eraseIfPW {c : Cell} (h : cellInvB c = true) :
    cellInvB (if Flag.W ∈ (if Flag.P ∈ c then c.erase Flag.P else c) then
        (if Flag.P ∈ c then c.erase Flag.P else c).erase Flag.W
      else (if Flag.P ∈ c then c.erase Flag.P else c)) = true := by
  by_cases hP : Flag.P ∈ c
  · simp only [if_pos hP]
    by_cases hW : Flag.W ∈ c.erase Flag.P
    · rw [if_pos hW]
      exact cellInvB_erase_W (cellInvB_erase_P h)
    · rw [if_neg hW]
      exact cellInvB_erase_P h
  · simp only [if_neg hP]
    by_cases hW : Flag.W ∈ c
    · rw [if_pos hW]
      exact cellInvB_erase_W h
    · rw [if_neg hW]
      exact h

theorem invB_harvest {s : SoilLayer} (r : RectI) (h : invB s = true) :
    invB (s.harvest_at_rect r).2 = true := by
  cases hpk : pickHarvest r s.plants with
  | none =>
    simp only [SoilLayer.harvest_at_rect, hpk]
    exact h
  | some pr =>
    obtain ⟨p, rest⟩ := pr
    obtain ⟨l1, l2, hl, hr⟩ := pickHarvest_split r s.plants p rest hpk
    rw [invB_iff] at h
    obtain ⟨hg, hpl, hdist⟩ := h
    have hpmem : p ∈ s.plants := by
      rw [hl]
      exact List.mem_append_right _ (List.mem_cons_self _ _)
    have hpp := (plantsPlacedB_iff.mp hpl) p hpmem
    have hpbnd := in_bounds_spec hpp.1
    have hcx : max 0 (min p.tx ((s.grid_w : Int) - 1)) = p.tx := by omega
    have hcy : max 0 (min p.ty ((s.grid_h : Int) - 1)) = p.ty := by omega
    simp only [SoilLayer.harvest_at_rect, hpk, hcx, hcy]
    have hc0 := gridInvB_getCell hg p.tx p.ty
    have hc2 := cellInvB_eraseIfPW hc0
    have hrest_pair : List.Pairwise
        (fun a b : Plant => ¬(a.tx = b.tx ∧ a.ty = b.ty)) rest := by
      rw [hr]
      refine List.Pairwise.sublist ?_ (hl ▸ plantsDistinctB_iff.mp hdist)
      exact List.Sublist.append_left (List.sublist_cons_self p l2) l1
    have hrest_ne : ∀ q ∈ rest, ¬(q.tx = p.tx ∧ q.ty = p.ty) := by
      have hpw := hl ▸ plantsDistinctB_iff.mp hdist
      rw [List.pairwise_append] at hpw
      intro q hq
      rw [hr] at hq
      rcases List.mem_append.mp hq with hq | hq
      · exact hpw.2.2 q hq p (List.mem_cons_self _ _)
      · have := (List.pairwise_cons.mp hpw.2.1).1 q hq
        rintro ⟨h1, h2⟩
        exact this ⟨h1.symm, h2.symm⟩
    rw [invB_iff]
    refine ⟨gridInvB_setCell p.tx p.ty hg hc2, ?_, plantsDistinctB_iff.mpr hrest_pair⟩
    rw [plantsPlacedB_iff]
    intro q hq
    have hqmem : q ∈ s.plants := by
      rw [hl]
      rw [hr] at hq
      rcases List.mem_append.mp hq with hq | hq
      · exact List.mem_append_left _ hq
      · exact List.mem_append_right _ (List.mem_cons_of_mem _ hq)
    have hqp := (plantsPlacedB_iff.mp hpl) q hqmem
    have hqbnd := in_bounds_spec hqp.1
    refine ⟨hqp.1, ?_⟩
    rw [getCell_setCell_ne]
    · exact hqp.2
    · rintro ⟨h1, h2⟩
      exact hrest_ne q hq ⟨by omega, by omega⟩

theorem restorePlantStep_eqX (acc : SoilLayer) (d : PlantDesc)
    (h1 : 0 ≤ d.x) (h2 : d.x < (acc.grid_w : Int)) (h3 : 0 ≤ d.y)
    (h4 : d.y < (acc.grid_h : Int)) (h5 : Flag.X ∈ getCell acc.grid d.x d.y) :
    restorePlantStep acc d
      = { acc with
            grid := if Flag.P ∈ getCell acc.grid d.x d.y then acc.grid
              else setCell acc.grid d.x d.y
                (getCell acc.grid d.x d.y ++ [Flag.P]),
            plants := acc.plants
              ++ [restoredPlant acc.assets acc.tile_size d.x d.y d] } := by
  have hw0 : 0 < acc.grid_w := by
    have h : (0 : Int) < (acc.grid_w : Int) := lt_of_le_of_lt h1 h2
    exact_mod_cast h
  have hh0 : 0 < acc.grid_h := by
    have h : (0 : Int) < (acc.grid_h : Int) := lt_of_le_of_lt h3 h4
    exact_mod_cast h
  have htx : (if 0 < acc.grid_w then max 0 (min d.x ((acc.grid_w : Int) - 1))
      else 0) = d.x := by
    rw [if_pos hw0]
    omega
  have hty : (if 0 < acc.grid_h then max 0 (min d.y ((acc.grid_h : Int) - 1))
      else 0) = d.y := by
    rw [if_pos hh0]
    omega
  have hbnd := mem_getCell_bounds h5
  by_cases hP : Flag.P ∈ getCell acc.grid d.x d.y
  · rw [if_pos hP]
    exact restorePlantStep_eq acc d h1 h2 h3 h4 hP
  · rw [if_neg hP]
    simp only [restorePlantStep, htx, hty, if_pos hbnd, if_neg hP]

theorem restoredPlant_fields (A : String → List (Nat × Nat)) (ts : Nat)
    (x y : Int) (d : PlantDesc) :
    (restoredPlant A ts x y d).tx = x ∧ (restoredPlant A ts x y d).ty = y := by
  have ht := restoredPlant_tuple A ts x y d
  exact ⟨congrArg (fun z => z.1) ht, congrArg (fun z => z.2.1) ht⟩

theorem restoreInv_fold : ∀ (ds : List PlantDesc) (acc : SoilLayer),
    invB acc = true →
    (∀ d ∈ ds, 0 ≤ d.x ∧ d.x < (acc.grid_w : Int) ∧ 0 ≤ d.y
      ∧ d.y < (acc.grid_h : Int) ∧ Flag.X ∈ getCell acc.grid d.x d.y) →
    List.Pairwise (fun d e : PlantDesc => ¬(d.x = e.x ∧ d.y = e.y)) ds →
    (∀ q ∈ acc.plants, ∀ d ∈ ds, ¬(q.tx = d.x ∧ q.ty = d.y)) →
    invB (ds.foldl restorePlantStep acc) = true
  | [], _, hinv, _, _, _ => hinv
  | d :: ds, acc, hinv, hds, hpw, hdis => by
    have h0 := hds d (List.mem_cons_self d ds)
    have hstep := restorePlantStep_eqX acc d h0.1 h0.2.1 h0.2.2.1 h0.2.2.2.1
      h0.2.2.2.2
    have hext : GridExtends acc.grid
        (if Flag.P ∈ getCell acc.grid d.x d.y then acc.grid
         else setCell acc.grid d.x d.y (getCell acc.grid d.x d.y ++ [Flag.P])) := by
      split
      · exact gridExtends_refl _
      · exact gridExtends_setCell_append _ _ _ _
    have hPin : Flag.P ∈ getCell
        (if Flag.P ∈ getCell acc.grid d.x d.y then acc.grid
         else setCell acc.grid d.x d.y (getCell acc.grid d.x d.y ++ [Flag.P]))
        d.x d.y := by
      split
      next hP => exact hP
      next hP =>
        have hbnd := mem_getCell_bounds h0.2.2.2.2
        rw [getCell_setCell_same _ _ _ _ hbnd.1 hbnd.2]
        exact List.mem_append_right _ (by simp)
    rw [invB_iff] at hinv
    obtain ⟨hg, hpl, hdist⟩ := hinv
    have hGinv : gridInvB
        (if Flag.P ∈ getCell acc.grid d.x d.y then acc.grid
         else setCell acc.grid d.x d.y
           (getCell acc.grid d.x d.y ++ [Flag.P])) = true := by
      split
      · exact hg
      · exact gridInvB_setCell _ _ hg
          (cellInvB_append_P (gridInvB_getCell hg _ _) h0.2.2.2.2)
    obtain ⟨hrx, hry⟩ := restoredPlant_fields acc.assets acc.tile_size d.x d.y d
    have hbnd_b : acc.in_bounds d.x d.y = true := by
      simp only [SoilLayer.in_bounds, Bool.and_eq_true, decide_eq_true_eq]
      exact ⟨⟨⟨h0.1, h0.2.1⟩, h0.2.2.1⟩, h0.2.2.2.1⟩
    rw [List.foldl_cons]
    apply restoreInv_fold ds (restorePlantStep acc d)
    · rw [hstep, invB_iff]
      refine ⟨hGinv, ?_, ?_⟩
      · rw [plantsPlacedB_iff]
        intro q hq
        rcases List.mem_append.mp hq with hq | hq
        · have hold := (plantsPlacedB_iff.mp hpl) q hq
          exact ⟨hold.1, hext _ _ _ hold.2⟩
        · rw [List.mem_singleton] at hq
          subst hq
          rw [hrx, hry]
          exact ⟨hbnd_b, hPin⟩
      · rw [plantsDistinctB_iff, List.pairwise_append]
        refine ⟨plantsDistinctB_iff.mp hdist, by simp, ?_⟩
        intro q hq q' hq'
        rw [List.mem_singleton] at hq'
        subst hq'
        rw [hrx, hry]
        exact hdis q hq d (List.mem_cons_self d ds)
    · intro e he
      have h := hds e (List.mem_cons_of_mem d he)
      rw [hstep]
      exact ⟨h.1, h.2.1, h.2.2.1, h.2.2.2.1, hext _ _ _ h.2.2.2.2⟩
    · exact (List.pairwise_cons.mp hpw).2
    · intro q hq e he
      rw [hstep] at hq
      rcases List.mem_append.mp hq with hq | hq
      · exact hdis q hq e (List.mem_cons_of_mem d he)
      · rw [List.mem_singleton] at hq
        subst hq
        rw [hrx, hry]
        exact (List.pairwise_cons.mp hpw).1 e he

theorem invB_restore (s : SoilLayer) (g : Grid) (ds : List PlantDesc)
    (hg : gridInvB g = true)
    (hds : ∀ d ∈ ds, 0 ≤ d.x ∧ d.x < ((g.headD []).length : Int) ∧ 0 ≤ d.y
      ∧ d.y < (g.length : Int) ∧ Flag.X ∈ getCell g d.x d.y)
    (hpw : List.Pairwise (fun d e : PlantDesc => ¬(d.x = e.x ∧ d.y = e.y)) ds) :
    invB (s.restore_state (some g) ds) = true := by
  have hre : s.restore_state (some g) ds
      = ds.foldl restorePlantStep
          { s with grid := g, grid_h := g.length,
                   grid_w := (g.headD []).length, plants := [] } := rfl
  rw [hre]
  apply restoreInv_fold
  · rw [invB_iff]
    refine ⟨hg, ?_, ?_⟩
    · rw [plantsPlacedB_iff]
      intro p hp
      exact absurd hp (List.not_mem_nil _)
    · rw [plantsDistinctB_iff]
      exact List.Pairwise.nil
  · exact hds
  · exact hpw
  · intro q hq
    exact absurd hq (List.not_mem_nil _)

theorem distinct_at_most_one : ∀ (l : List Plant),
    plantsDistinctB l = true → ∀ tx ty : Int,
      (l.filter fun p => decide (p.tx = tx) && decide (p.ty = ty)).length ≤ 1
  | [], _, _, _ => by simp
  | p :: ps, h, tx, ty => by
    rw [plantsDistinctB_iff, List.pairwise_cons] at h
    obtain ⟨hhead, htail⟩ := h
    rw [List.filter_cons]
    split
    next hp =>
      simp only [Bool.and_eq_true, decide_eq_true_eq] at hp
      have hnil : ps.filter (fun p => decide (p.tx = tx) && decide (p.ty = ty))
          = [] := by
        rw [List.filter_eq_nil_iff]
        intro q hq
        simp only [Bool.and_eq_true, decide_eq_true_eq, not_and]
        intro hqx hqy
        exact hhead q hq ⟨hp.1.trans hqx.symm, hp.2.trans hqy.symm⟩
      rw [hnil]
      simp
    next hp =>
      exact distinct_at_most_one ps (plantsDistinctB_iff.mpr htail) tx ty

/-- A 1x1 all-farmable layer satisfying the invariants. -/
def soil4 : SoilLayer :=
  { tile_size := 48, grid_w := 1, grid_h := 1, grid := [[[Flag.F]]],
    plants := [], raining := false, assets := fun _ => [] }

/-- C4 counterexample: `restore_state` does not preserve the tile invariants —
restoring a payload whose only cell is `['W']` (watered but not tilled) into
an invariant-satisfying layer yields a grid violating "Watered requires
Tilled". -/
theorem restore_state_breaks_invariants :
    invB soil4 = true
    ∧ invB (soil4.restore_state (some [[[Flag.W]]]) []) = false := by
  decide

/-- C4 amended: till, water, water_all, remove_water, plant, update_plants and
harvest_at_rect preserve the strengthened tile invariants (Watered requires
Tilled, Planted requires Tilled, every live crop sits in bounds on a Planted
tile, and distinct crops occupy distinct tiles — which imply at most one live
crop per Planted tile, the last conjunct).  restore_state need not preserve
them (it installs the payload grid verbatim), but it establishes them whenever
the payload grid itself satisfies the flag invariants and every plant
descriptor lies in bounds on a Tilled cell, with distinct descriptor tiles. -/
theorem soil_ops_preserve_invariants :
    (∀ (s : SoilLayer) (tx ty : Int), invB s = true → invB (s.till tx ty).2 = true)
    ∧ (∀ (s : SoilLayer) (tx ty : Int), invB s = true →
        invB (s.water tx ty).2 = true)
    ∧ (∀ s : SoilLayer, invB s = true → invB s.water_all = true)
    ∧ (∀ s : SoilLayer, invB s = true → invB s.remove_water = true)
    ∧ (∀ (s : SoilLayer) (tx ty : Int) (seed : String), invB s = true →
        invB (s.plant tx ty seed).2 = true)
    ∧ (∀ s : SoilLayer, invB s = true → invB s.update_plants = true)
    ∧ (∀ (s : SoilLayer) (r : RectI), invB s = true →
        invB (s.harvest_at_rect r).2 = true)
    ∧ (∀ (s : SoilLayer) (g : Grid) (ds : List PlantDesc),
        gridInvB g = true →
        (∀ d ∈ ds, 0 ≤ d.x ∧ d.x < ((g.headD []).length : Int) ∧ 0 ≤ d.y
          ∧ d.y < (g.length : Int) ∧ Flag.X ∈ getCell g d.x d.y) →
        List.Pairwise (fun d e : PlantDesc => ¬(d.x = e.x ∧ d.y = e.y)) ds →
        invB (s.restore_state (some g) ds) = true)
    ∧ (∀ s : SoilLayer, invB s = true → ∀ tx ty : Int,
        (s.plants.filter fun p =>
          decide (p.tx = tx) && decide (p.ty = ty)).length ≤ 1) :=
  ⟨fun _ tx ty h => invB_till tx ty h,
   fun _ tx ty h => invB_water tx ty h,
   fun _ h => invB_water_all h,
   fun _ h => invB_remove_water h,
   fun _ tx ty seed h => invB_plant tx ty seed h,
   fun _ h => invB_update_plants h,
   fun _ r h => invB_harvest r h,
   fun s g ds hg hds hpw => invB_restore s g ds hg hds hpw,
   fun s h tx ty => distinct_at_most_one s.plants (invB_iff.mp h).2.2 tx ty⟩

/-- Witness for C4: tilling soil4's only tile preserves the invariants, and
restoring a well-formed payload establishes them. -/
theorem soil_ops_preserve_invariants_witness :
    invB (soil4.till 0 0).2 = true
    ∧ invB (soil4.restore_state (some [[[Flag.F, Flag.X]]]) []) = true :=
  ⟨soil_ops_preserve_invariants.1 soil4 0 0 (by decide),
   soil_ops_preserve_invariants.2.2.2.2.2.2.2.1 soil4 [[[Flag.F, Flag.X]]] []
     (by decide) (fun d hd => absurd hd (List.not_mem_nil _))
     List.Pairwise.nil⟩

end Mystic
